import Mathlib

/-!
Verification of the Detection and Attribution Engine against its design
specification.  The definitions below are shallow embeddings of the Python
source files (`market_sensitivity.py`, `exit_tracking.py`,
`post_event_review.py`, `sanity_filter.py`, `wallet_graph.py`, `main.py`).
Machine floats are modelled as rationals, SQLite tables as Lean lists of
records, and external collaborators (market price fetch, trade feed) as
explicit function parameters.
-/

namespace PolymarketInsider

/-! ## Market sensitivity classifier (`market_sensitivity.py`) -/

/-- Result record of `get_market_sensitivity`. -/
structure Sensitivity where
  priority : Nat
  level : String
  score : Nat
  matched_keywords : List String
deriving Repr, DecidableEq

/-- Priority 1 keyword list `CRITICAL_KEYWORDS` from `market_sensitivity.py`. -/
def CRITICAL_KEYWORDS : List String :=
  ["coup", "coup d\x27etat", "military coup", "regime change", "overthrow",
   "war", "invasion", "conflict", "military action", "armed conflict",
   "assassination", "assassinate", "killed", "murdered",
   "revolution", "uprising", "rebellion", "insurgency",
   "nuclear", "nuclear war", "nuclear weapon",
   "civil war", "civil unrest", "civil conflict"]

/-- Priority 2 keyword list `HIGH_KEYWORDS` from `market_sensitivity.py`. -/
def HIGH_KEYWORDS : List String :=
  ["election", "presidential election", "vote", "voting", "ballot",
   "resign", "resignation", "step down", "stepdown",
   "impeach", "impeachment", "removed from office",
   "prime minister", "president", "chancellor",
   "referendum", "plebiscite"]

/-- Priority 3 keyword list `MEDIUM_HIGH_KEYWORDS` from `market_sensitivity.py`. -/
def MEDIUM_HIGH_KEYWORDS : List String :=
  ["sanction", "sanctions", "embargo", "trade ban",
   "arrest", "arrested", "indictment", "indicted",
   "charges", "charged", "prosecution", "prosecute",
   "trial", "conviction", "sentenced",
   "freeze assets", "asset freeze", "seized"]

/-- Priority 4 keyword list `MEDIUM_KEYWORDS` from `market_sensitivity.py`. -/
def MEDIUM_KEYWORDS : List String :=
  ["ai ban", "artificial intelligence ban", "chatgpt ban", "openai ban",
   "tech ban", "technology ban", "export ban", "export control",
   "semiconductor", "chip ban", "chip export",
   "regulation", "regulate", "regulatory"]

/-- Priority 5 keyword list `LOW_KEYWORDS` from `market_sensitivity.py`. -/
def LOW_KEYWORDS : List String :=
  ["celebrity", "actor", "actress", "singer", "musician",
   "award", "oscar", "grammy", "emmy",
   "divorce", "marriage", "engagement",
   "death", "died", "passes away"]

/-- Python `str.lower()` restricted to the ASCII texts handled here,
written over the character list so that it evaluates by kernel reduction. -/
def lowerStr (s : String) : String := String.mk (s.data.map Char.toLower)

/-- Word character in the sense of the regex `\b` boundary; the keyword
lists and market texts handled here are ASCII, so `isAlphanum` together
with the underscore matches the Python `\w` class on all relevant inputs. -/
def isWordChar (c : Char) : Bool := c.isAlphanum || c == '_'

/-- A keyword occurrence starting at the head of `text` respects the
trailing `\b` boundary: the keyword is a prefix and the character right
after it (if any) is not a word character. -/
def hitAt (kw text : List Char) : Bool :=
  kw.isPrefixOf text &&
    (match text.drop kw.length with
     | [] => true
     | c :: _ => !isWordChar c)

/-- Scan of `re.search` for the pattern `\b kw \b`: `prev` is the character
just before the current suffix (`none` at the start of the text).  Every
keyword begins and ends with a word character, so the leading boundary is
exactly the requirement that `prev` is absent or not a word character. -/
def boundary_scan (kw : List Char) : Option Char → List Char → Bool
  | prev, [] =>
    (match prev with | none => true | some c => !isWordChar c) && hitAt kw []
  | prev, c :: rest =>
    ((match prev with | none => true | some c0 => !isWordChar c0) &&
      hitAt kw (c :: rest)) ||
    boundary_scan kw (some c) rest

/-- `re.search(r'\b' + re.escape(keyword) + r'\b', text)` as used by
`get_market_sensitivity`; both the keyword and the text it is applied to
are lowercase, so the `IGNORECASE` flag is inert. -/
def word_boundary_search (kw text : String) : Bool :=
  boundary_scan kw.data none text.data

/-- Whether some keyword of a tier matches `text` at word boundaries. -/
def tier_matches (kws : List String) (text : String) : Bool :=
  kws.any (fun kw => word_boundary_search kw text)

/-- `get_market_sensitivity(market_question, market_category)` from
`market_sensitivity.py`.  An empty question short-circuits to the NORMAL
record before the category is consulted; otherwise the five keyword tiers
are scanned in priority order against the lowercased concatenation, and
the first tier with a match determines the result (with the first matching
keyword of that tier recorded). -/
def get_market_sensitivity (market_question : String)
    (market_category : String := "") : Sensitivity :=
  if market_question = "" then
    ⟨5, "NORMAL", 0, []⟩
  else
    let text := lowerStr (market_question ++ " " ++ market_category)
    match CRITICAL_KEYWORDS.find? (fun kw => word_boundary_search kw text) with
    | some kw => ⟨1, "CRITICAL", 100, [kw]⟩
    | none =>
    match HIGH_KEYWORDS.find? (fun kw => word_boundary_search kw text) with
    | some kw => ⟨2, "HIGH", 80, [kw]⟩
    | none =>
    match MEDIUM_HIGH_KEYWORDS.find? (fun kw => word_boundary_search kw text) with
    | some kw => ⟨3, "MEDIUM-HIGH", 60, [kw]⟩
    | none =>
    match MEDIUM_KEYWORDS.find? (fun kw => word_boundary_search kw text) with
    | some kw => ⟨4, "MEDIUM", 40, [kw]⟩
    | none =>
    match LOW_KEYWORDS.find? (fun kw => word_boundary_search kw text) with
    | some kw => ⟨5, "LOW", 20, [kw]⟩
    | none => ⟨5, "NORMAL", 0, []⟩

/-- `get_required_signals(sensitivity)` from `market_sensitivity.py`. -/
def get_required_signals (s : Sensitivity) : Nat :=
  if s.priority ≤ 2 then 1
  else if s.priority = 3 then 2
  else 3

/-! ## Position tracker (`exit_tracking.py`) -/

/-- Row of the `positions` table created by `init_exit_tracking_tables`.
`REAL` columns are modelled as rationals, nullable columns as options. -/
structure Position where
  id : Nat
  wallet : String
  market : String
  outcome : String
  entry_price : ℚ
  entry_amount : ℚ
  entry_timestamp : ℤ
  exit_price : Option ℚ
  exit_timestamp : Option ℤ
  profit_loss : Option ℚ
  exit_delay_hours : Option ℚ
  status : String
deriving Repr, DecidableEq

/-- `record_position` from `exit_tracking.py`: inserts a new open position;
the `AUTOINCREMENT` primary key is modelled as one more than the largest
id in the table. -/
def record_position (db : List Position) (wallet market outcome : String)
    (entry_price entry_amount : ℚ) (timestamp : ℤ) : List Position :=
  let nextId := (db.map (fun p => p.id)).foldr max 0 + 1
  db ++ [⟨nextId, wallet, market, outcome, entry_price, entry_amount,
          timestamp, none, none, none, none, "open"⟩]

/-- Stable insertion of `x` into a list sorted by the boolean order `le`;
used to model SQL `ORDER BY ... ASC`. -/
def insertSorted (le : α → α → Bool) (x : α) : List α → List α
  | [] => [x]
  | y :: ys => if le x y then x :: y :: ys else y :: insertSorted le x ys

/-- Stable insertion sort by the boolean order `le`; models `ORDER BY`. -/
def sortByB (le : α → α → Bool) : List α → List α
  | [] => []
  | x :: xs => insertSorted le x (sortByB le xs)

/-- Row returned by `record_exit` (the dict built in `exit_tracking.py`). -/
structure ExitResult where
  position_id : Nat
  profit_loss : ℚ
  exit_delay_hours : ℚ
  entry_price : ℚ
  exit_price : ℚ
deriving Repr, DecidableEq

/-- Predicate of the `WHERE` clause in `record_exit`: open position for the
(wallet, market, outcome) key. -/
def matchesExitKey (wallet market outcome : String) (p : Position) : Bool :=
  decide (p.wallet = wallet) && decide (p.market = market) &&
    decide (p.outcome = outcome) && decide (p.status = "open")

/-- `record_exit` from `exit_tracking.py`: selects the open positions of the
key ordered by entry timestamp ascending, closes the first (oldest) one with
`profit_loss = (exit_price - entry_price) * entry_amount` and
`exit_delay_hours = (exit_timestamp - entry_timestamp) / 3600`, and returns
`none` without touching the table when no open position matches. -/
def record_exit (db : List Position) (wallet market outcome : String)
    (exit_price : ℚ) (exit_timestamp : ℤ) : Option ExitResult × List Position :=
  let positions := sortByB (fun p q => decide (p.entry_timestamp ≤ q.entry_timestamp))
    (db.filter (matchesExitKey wallet market outcome))
  match positions with
  | [] => (none, db)
  | pos :: _ =>
    let profit_loss := (exit_price - pos.entry_price) * pos.entry_amount
    let exit_delay_hours := ((exit_timestamp - pos.entry_timestamp : ℤ) : ℚ) / 3600
    let db2 := db.map (fun p =>
      if p.id = pos.id then
        { p with exit_price := some exit_price,
                 exit_timestamp := some exit_timestamp,
                 profit_loss := some profit_loss,
                 exit_delay_hours := some exit_delay_hours,
                 status := "closed" }
      else p)
    (some ⟨pos.id, profit_loss, exit_delay_hours, pos.entry_price, exit_price⟩, db2)

/-- `check_early_exit_pattern` from `exit_tracking.py`.  The SQL query
computes `AVG(exit_delay_hours)` (ignoring NULLs) as `result[0]` and
`COUNT(*)` as `result[1]`; the Python then unpacks
`avg_hold_time, exit_count = result[1], result[0]`, so `avg_hold_time`
receives the row count and `exit_count` receives the average, and the final
test `avg_hold_time < 6 and exit_count >= 2` compares them the wrong way
round. -/
def check_early_exit_pattern (db : List Position) (wallet market : String) : Bool :=
  let rows := db.filter (fun p =>
    decide (p.wallet = wallet) && decide (p.market = market) &&
      decide (p.status = "closed"))
  let cnt := rows.length
  if cnt = 0 then false
  else
    let delays := rows.filterMap (fun p => p.exit_delay_hours)
    let avgDelay : Option ℚ :=
      if delays.length = 0 then none else some (delays.sum / (delays.length : ℚ))
    let avg_hold_time : ℚ := (cnt : ℚ)
    let exit_count : Option ℚ := avgDelay
    decide (avg_hold_time < 6) &&
      (match exit_count with
       | none => false
       | some a => decide (a ≥ 2))

/-- The early-exit check as the specification words it: true iff the wallet
has at least two closed positions in the market and the average hold time
over those positions is strictly below six hours.  Stated for comparison
with `check_early_exit_pattern`. -/
def earlyExitPattern_specified (db : List Position) (wallet market : String) : Bool :=
  let rows := db.filter (fun p =>
    decide (p.wallet = wallet) && decide (p.market = market) &&
      decide (p.status = "closed"))
  let delays := rows.filterMap (fun p => p.exit_delay_hours)
  decide (2 ≤ rows.length) &&
    decide (delays.sum / (delays.length : ℚ) < 6)

/-! ## Attribution engine (`post_event_review.py`) -/

/-- Row of the `alerts` table.  Columns not set at insertion time are
nullable and modelled as options. -/
structure Alert where
  alert_id : Nat
  market : String
  wallet : String
  fired_timestamp : ℤ
  fired_price : ℚ
  signals : String
  status : String
  peak_price : Option ℚ
  peak_timestamp : Option ℤ
  outcome : Option String
  outcome_timestamp : Option ℤ
  hours_to_outcome : Option ℚ
  price_change : Option ℚ
  peak_price_change : Option ℚ
  profit_loss : Option ℚ
  is_correct : Option Bool
deriving Repr, DecidableEq

/-- `record_alert` from `post_event_review.py`: joins the signal list with
`"|"` (in the order given, no sorting), inserts a pending row, and returns
the fresh `lastrowid`, modelled as one more than the largest existing id. -/
def record_alert (db : List Alert) (market wallet : String)
    (fired_timestamp : ℤ) (fired_price : ℚ) (signals : List String) :
    Nat × List Alert :=
  let signals_str := String.intercalate "|" signals
  let nextId := (db.map (fun a => a.alert_id)).foldr max 0 + 1
  (nextId, db ++ [⟨nextId, market, wallet, fired_timestamp, fired_price,
    signals_str, "pending", none, none, none, none, none, none, none, none,
    none⟩])

/-- `update_peak_price` from `post_event_review.py`: overwrites the peak
price and peak timestamp of the row with the given id. -/
def update_peak_price (db : List Alert) (alert_id : Nat)
    (peak_price : ℚ) (peak_timestamp : ℤ) : List Alert :=
  db.map (fun a =>
    if a.alert_id = alert_id then
      { a with peak_price := some peak_price,
               peak_timestamp := some peak_timestamp }
    else a)

/-- Dict returned by `resolve_alert`. -/
structure ResolveResult where
  alert_id : Nat
  hours_to_outcome : ℚ
  price_change : ℚ
  peak_price_change : ℚ
  profit_loss : ℚ
  is_correct : Bool
deriving Repr, DecidableEq

/-- `resolve_alert` from `post_event_review.py`.  The function looks the
alert up by id only — there is no check of the stored `status` — computes
the resolution metrics and overwrites the resolution columns, setting
`status = 'resolved'`.  The Python guard `if peak_price else 0` treats a
stored peak of `0` like a missing peak (falsiness). -/
def resolve_alert (db : List Alert) (alert_id : Nat) (outcome : String)
    (outcome_timestamp : ℤ) (resolution_price : ℚ) :
    Option ResolveResult × List Alert :=
  match db.find? (fun a => decide (a.alert_id = alert_id)) with
  | none => (none, db)
  | some a =>
    let hours_to_outcome := ((outcome_timestamp - a.fired_timestamp : ℤ) : ℚ) / 3600
    let price_change := resolution_price - a.fired_price
    let peak_price_change : ℚ :=
      match a.peak_price with
      | none => 0
      | some p => if p = 0 then 0 else p - a.fired_price
    let profit_loss := (resolution_price - a.fired_price) * 100
    let is_correct := decide (profit_loss > 0) || decide (|peak_price_change| > 3/20)
    let db2 := db.map (fun b =>
      if b.alert_id = alert_id then
        { b with outcome := some outcome,
                 outcome_timestamp := some outcome_timestamp,
                 hours_to_outcome := some hours_to_outcome,
                 price_change := some price_change,
                 peak_price_change := some peak_price_change,
                 profit_loss := some profit_loss,
                 is_correct := some is_correct,
                 status := "resolved" }
      else b)
    (some ⟨alert_id, hours_to_outcome, price_change, peak_price_change,
      profit_loss, is_correct⟩, db2)

/-- Market price snapshot as returned by `get_market_prices`; a `none`
fetch result models both `None` and the falsy empty dict. -/
structure Prices where
  yes_price : Option ℚ
  no_price : Option ℚ
  timestamp : Option ℤ
deriving Repr, DecidableEq

/-- Peak candidate of `update_peak_prices`: the larger of the YES and NO
prices, each defaulting to 0 when absent. -/
def peakCandidate (pr : Prices) : ℚ :=
  max (pr.yes_price.getD 0) (pr.no_price.getD 0)

/-- Timestamp written with a new peak: the fetched timestamp unless it is
missing or falsy (0), in which case the current time is used
(`prices.get("timestamp") or int(time.time())`). -/
def peakTimestamp (pr : Prices) (now : ℤ) : ℤ :=
  match pr.timestamp with
  | none => now
  | some ts => if ts = 0 then now else ts

/-- `get_pending_alerts` from `post_event_review.py`: pending rows ordered
by fired timestamp. -/
def get_pending_alerts (db : List Alert) : List Alert :=
  sortByB (fun a b => decide (a.fired_timestamp ≤ b.fired_timestamp))
    (db.filter (fun a => decide (a.status = "pending")))

/-- Loop body of `update_peak_prices` for one pending alert (identified by
its snapshotted id and market): fetch prices, re-read the currently stored
peak, and overwrite it when the stored peak is missing or falsy (`not
current_peak`) or the candidate is strictly greater.  Returns the table and
whether an update was written. -/
def peak_step (fetch : String → Option Prices) (now : ℤ)
    (db : List Alert) (idm : Nat × String) : List Alert × Bool :=
  match fetch idm.2 with
  | none => (db, false)
  | some pr =>
    let peak_price := peakCandidate pr
    let peak_timestamp := peakTimestamp pr now
    let current_peak : Option ℚ :=
      match db.find? (fun a => decide (a.alert_id = idm.1)) with
      | some a => a.peak_price
      | none => none
    let shouldWrite :=
      match current_peak with
      | none => true
      | some p => decide (p = 0) || decide (peak_price > p)
    if shouldWrite then
      (update_peak_price db idm.1 peak_price peak_timestamp, true)
    else
      (db, false)

/-- Iteration of `update_peak_prices` over the snapshot of pending alerts,
threading the table and counting the rows written. -/
def peak_pass (fetch : String → Option Prices) (now : ℤ) :
    List (Nat × String) → List Alert → Nat → List Alert × Nat
  | [], db, updated => (db, updated)
  | idm :: rest, db, updated =>
    peak_pass fetch now rest (peak_step fetch now db idm).1
      (if (peak_step fetch now db idm).2 then updated + 1 else updated)

/-- `update_peak_prices` from `post_event_review.py`: walks the pending
alerts (snapshotted up front) and applies `peak_step` to each, returning
the updated table and the number of peaks written.  The price fetch is the
external `get_market_prices` collaborator, passed as a function. -/
def update_peak_prices (db : List Alert) (fetch : String → Option Prices)
    (now : ℤ) : List Alert × Nat :=
  let pending := (get_pending_alerts db).map (fun a => (a.alert_id, a.market))
  peak_pass fetch now pending db 0

/-! ## Sanity filter (`sanity_filter.py`) and alert decision (`main.py`) -/

/-- Normalized trade record produced by `normalize_trade` in `main.py`,
restricted to the fields the decision path reads.  `market_liquidity` is
the parsed float of the liquidity string, `none` when parsing fails. -/
structure Trade where
  id : String
  wallet : String
  market : String
  market_question : String
  market_category : String
  market_liquidity : Option ℚ
  usd : ℚ
  price : ℚ
  timestamp : ℤ
  outcome : String
deriving Repr, DecidableEq

/-- Row of the `trades` table. -/
structure TradeRow where
  wallet : String
  market : String
  usd : ℚ
  price : ℚ
  timestamp : ℤ
deriving Repr, DecidableEq

/-- Row of the `wallet_trade_frequency` cache table. -/
structure FreqRow where
  wallet : String
  trades_last_24h : Nat
  last_updated : ℤ
deriving Repr, DecidableEq

/-- State read and written by the sanity filter. -/
structure SanityDB where
  trades : List TradeRow
  freq : List FreqRow
deriving Repr, DecidableEq

/-- `MIN_MARKET_LIQUIDITY` from `config.py`. -/
def MIN_MARKET_LIQUIDITY : ℚ := 10000

/-- `MAX_PRICE_JUMP_SINGLE_TRADE` from `config.py`. -/
def MAX_PRICE_JUMP_SINGLE_TRADE : ℚ := 1/5

/-- `HIGH_FREQ_TRADER_THRESHOLD` from `config.py`. -/
def HIGH_FREQ_TRADER_THRESHOLD : Nat := 50

/-- `check_market_liquidity` from `sanity_filter.py` (validity bit only;
the Python reason string carries no further information).  When the
liquidity field does not parse, the trailing-day traded volume of the
market substitutes for it. -/
def check_market_liquidity (db : SanityDB) (now : ℤ) (t : Trade) : Bool :=
  let liquidity : ℚ :=
    match t.market_liquidity with
    | some l => l
    | none =>
      ((db.trades.filter (fun r =>
        decide (r.market = t.market) && decide (r.timestamp ≥ now - 86400))).map
          (fun r => r.usd)).sum
  !(decide (liquidity < MIN_MARKET_LIQUIDITY))

/-- `check_price_jump_single_trade` from `sanity_filter.py` (validity bit
only). -/
def check_price_jump_single_trade (market_id : String)
    (current_price current_trade_usd : ℚ) (recent_trades : List Trade) : Bool :=
  if recent_trades.length < 2 then true
  else
    let prices_before := (recent_trades.filter (fun t =>
      decide (t.market = market_id))).map (fun t => t.price)
    if prices_before = [] then true
    else
      let avg_price_before := prices_before.sum / (prices_before.length : ℚ)
      let price_change := |current_price - avg_price_before|
      if price_change > MAX_PRICE_JUMP_SINGLE_TRADE then
        let recent_avg_size :=
          ((recent_trades.map (fun t => t.usd)).sum) / (recent_trades.length : ℚ)
        !(decide (current_trade_usd > recent_avg_size * 5))
      else true

/-- `is_high_frequency_trader` from `sanity_filter.py`: a cached count is
used when the cache row exists with a truthy (nonzero) timestamp less than
an hour old; otherwise the trailing-24h trade count is computed fresh and
written back to the cache (`INSERT OR REPLACE`). -/
def is_high_frequency_trader (db : SanityDB) (now : ℤ) (wallet : String) :
    Bool × SanityDB :=
  let cached := db.freq.find? (fun r => decide (r.wallet = wallet))
  let useCache :=
    match cached with
    | some r => decide (r.last_updated ≠ 0) && decide (now - r.last_updated < 3600)
    | none => false
  match cached with
  | some r =>
    if useCache then (decide (r.trades_last_24h ≥ HIGH_FREQ_TRADER_THRESHOLD), db)
    else
      let cnt := (db.trades.filter (fun t =>
        decide (t.wallet = wallet) && decide (t.timestamp ≥ now - 86400))).length
      let freq2 := (db.freq.filter (fun q => !(decide (q.wallet = wallet)))) ++
        [⟨wallet, cnt, now⟩]
      (decide (cnt ≥ HIGH_FREQ_TRADER_THRESHOLD), { db with freq := freq2 })
  | none =>
    let cnt := (db.trades.filter (fun t =>
      decide (t.wallet = wallet) && decide (t.timestamp ≥ now - 86400))).length
    let freq2 := (db.freq.filter (fun q => !(decide (q.wallet = wallet)))) ++
      [⟨wallet, cnt, now⟩]
    (decide (cnt ≥ HIGH_FREQ_TRADER_THRESHOLD), { db with freq := freq2 })

/-- `sanity_check` from `sanity_filter.py`: the three gates run in order
with early return; the filter reason is reduced to a tag naming the failed
gate (the Python string interpolates the same data).  The `signals`
argument is accepted and unused, as in the source. -/
def sanity_check (db : SanityDB) (now : ℤ) (t : Trade)
    (signals : List String) (recent_trades : List Trade) :
    Bool × Option String × SanityDB :=
  let _ := signals
  if !(check_market_liquidity db now t) then
    (false, some "liquidity_too_low", db)
  else if !(check_price_jump_single_trade t.market t.price t.usd recent_trades) then
    (false, some "price_jump_single_trade", db)
  else
    let (is_hft, db2) := is_high_frequency_trader db now t.wallet
    if is_hft then (false, some "high_frequency_trader", db2)
    else (true, none, db2)

/-- Row of the `filtered_alerts` audit table. -/
structure FilteredAlert where
  market : String
  wallet : String
  signals : String
  filter_reason : String
  timestamp : ℤ
deriving Repr, DecidableEq

/-- `record_filtered_alert` from `sanity_filter.py`. -/
def record_filtered_alert (db : List FilteredAlert) (market wallet : String)
    (signals : List String) (filter_reason : String) (now : ℤ) :
    List FilteredAlert :=
  db ++ [⟨market, wallet, String.intercalate "|" signals, filter_reason, now⟩]

/-- Persistent state touched by the alert decision. -/
structure EngineDB where
  sanity : SanityDB
  alerts : List Alert
  filtered : List FilteredAlert
deriving Repr, DecidableEq

/-- Decision portion of `main.run` for one trade whose signals have been
computed (`main.py` lines 184 to 211): the alert fires when the signal
count reaches the sensitivity-derived threshold and `sanity_check` passes,
in which case `record_alert` persists it; when the sanity filter rejects
it, `record_filtered_alert` logs it instead.  No check against previously
fired alerts is performed. -/
def alert_decision (db : EngineDB) (now : ℤ) (t : Trade)
    (signals : List String) (recent_trades : List Trade) : EngineDB :=
  let sensitivity := get_market_sensitivity t.market_question t.market_category
  let required_signals := get_required_signals sensitivity
  if signals.length ≥ required_signals then
    match sanity_check db.sanity now t signals recent_trades with
    | (true, _, s2) =>
      let (_, alerts2) := record_alert db.alerts t.market t.wallet t.timestamp
        t.price signals
      ⟨s2, alerts2, db.filtered⟩
    | (false, reason, s2) =>
      ⟨s2, db.alerts,
        record_filtered_alert db.filtered t.market t.wallet signals
          (reason.getD "") now⟩
  else db

/-- The alert decision applied to each trade of a batch in order, as the
loop in `main.run` does (with `recent_trades` the normalized batch). -/
def process_alert_decisions (db : EngineDB) (now : ℤ)
    (batch : List (Trade × List String)) (recent_trades : List Trade) :
    EngineDB :=
  batch.foldl (fun acc item => alert_decision acc now item.1 item.2 recent_trades) db

/-! ## Batch loop control flow (`main.py`, `run`) -/

/-- Control-flow skeleton of the trade loop in `main.run`: the body
(modelled by `step`, covering storage, position tracking, analysis and the
alert decision for one trade) is run for each trade in order.  The loop
itself contains no exception handler — only `store_trade`, inside the
body, catches its own errors — so an exception raised by the body
propagates and the remaining trades are not processed, which the `Except`
result models. -/
def trade_loop (step : Trade → σ → Except String σ) :
    List Trade → σ → Except String σ
  | [], db => Except.ok db
  | t :: ts, db =>
    match step t db with
    | Except.ok db2 => trade_loop step ts db2
    | Except.error e => Except.error e

/-- The batch loop as the specification describes it: a failure of the body
on one trade is caught and the loop continues with the next trade.  Stated
for comparison with `trade_loop`. -/
def trade_loop_specified (step : Trade → σ → Except String σ) :
    List Trade → σ → σ
  | [], db => db
  | t :: ts, db =>
    match step t db with
    | Except.ok db2 => trade_loop_specified step ts db2
    | Except.error _ => trade_loop_specified step ts db

/-! ## Wallet relationship graph (`wallet_graph.py`) -/

/-- The wallets appearing in the `wallet_funding` table (first components
of the funding edges), without duplicates. -/
def walletList (edges : List (String × String)) : List String :=
  (edges.map Prod.fst).dedup

/-- Adjacency of the induced graph built by
`find_shared_funding_clusters`: two distinct wallets are connected when
some funding source lists both of them (a source shared by two distinct
wallets necessarily has at least the two of them, which is the code gate
`len(wallets) >= 2`). -/
def adjacentB (edges : List (String × String)) (w1 w2 : String) : Bool :=
  decide (w1 ≠ w2) &&
    edges.any (fun e1 => decide (e1.1 = w1) &&
      edges.any (fun e2 => decide (e2.1 = w2) && decide (e2.2 = e1.2)))

/-- Neighbour list of a wallet in the induced graph
(`wallet_connections[wallet]` as a list). -/
def neighborsOf (edges : List (String × String)) (w : String) : List String :=
  (walletList edges).filter (fun v => adjacentB edges w v)

/-- Wallets present in `wallet_connections`, i.e. wallets with at least one
neighbour; these are the roots the component loop iterates over. -/
def connectedWallets (edges : List (String × String)) : List String :=
  (walletList edges).filter (fun w => !(neighborsOf edges w).isEmpty)

/-- Depth-first traversal of `find_shared_funding_clusters` with an
explicit stack and a visited list.  The Python recursion terminates because
the visited set grows; here a fuel argument plays that role, and
`dfs_fuel` below is always sufficient, so the fuel-exhausted branch is
unreachable in the uses made of this function. -/
def dfsAux (edges : List (String × String)) :
    Nat → List String → List String → List String
  | _, [], visited => visited
  | 0, _ :: _, visited => visited
  | fuel + 1, w :: stack, visited =>
    if w ∈ visited then dfsAux edges fuel stack visited
    else dfsAux edges fuel (neighborsOf edges w ++ stack) (w :: visited)

/-- Fuel sufficient for any traversal of the induced graph. -/
def dfs_fuel (edges : List (String × String)) : Nat :=
  ((walletList edges).length + 1) * ((walletList edges).length + 1)

/-- Loop of `find_shared_funding_clusters` over the candidate roots: each
unvisited root is expanded into the wallets newly reached from it, and the
resulting component is kept when it has at least two wallets — the literal
`2` of `len(cluster) >= 2` in the source, independent of the `min_shared`
argument. -/
def clusters_loop (edges : List (String × String)) :
    List String → List String → List (List String)
  | [], _ => []
  | w :: ws, visited =>
    if w ∈ visited then clusters_loop edges ws visited
    else
      let visited2 := dfsAux edges (dfs_fuel edges) [w] visited
      let cluster := visited2.filter (fun v => !(decide (v ∈ visited)))
      if 2 ≤ cluster.length then cluster :: clusters_loop edges ws visited2
      else clusters_loop edges ws visited2

/-- `find_shared_funding_clusters` from `wallet_graph.py`.  The
`min_shared` parameter is accepted and never read, exactly as in the
source, where the component filter is the hardcoded `len(cluster) >= 2`. -/
def find_shared_funding_clusters (edges : List (String × String))
    (min_shared : Nat := 2) : List (List String) :=
  let _ := min_shared
  clusters_loop edges (connectedWallets edges) []

/-- Propositional form of the induced-graph adjacency. -/
def Adj (edges : List (String × String)) (a b : String) : Prop :=
  adjacentB edges a b = true

/-- Reachability in the induced shared-funding graph. -/
def Reach (edges : List (String × String)) : String → String → Prop :=
  Relation.ReflTransGen (Adj edges)

/-- A connected component of the shared-funding graph: a nonempty set of
wallets closed under adjacency whose members are mutually reachable. -/
def IsFundingComponent (edges : List (String × String))
    (S : Finset String) : Prop :=
  S.Nonempty ∧ (∀ a ∈ S, ∀ b, Adj edges a b → b ∈ S) ∧
    (∀ a ∈ S, ∀ b ∈ S, Reach edges a b)

/-! ## Concrete fixtures used by individual claim checks -/

/-- Lookup of an alert row by id (the `WHERE alert_id = ?` selections). -/
def alertById (db : List Alert) (i : Nat) : Option Alert :=
  db.find? (fun a => decide (a.alert_id = i))

/-- A single pending alert fired at price 0.40. -/
def c1_alerts0 : List Alert :=
  [⟨1, "M", "W", 0, 2/5, "sig", "pending", none, none, none, none, none,
    none, none, none, none⟩]

/-- The table after resolving alert 1 as YES at resolution price 1. -/
def c1_alerts1 : List Alert := (resolve_alert c1_alerts0 1 "YES" 3600 1).2

/-- The table after a second resolution call on the already-resolved alert
1, now as NO at resolution price 0. -/
def c1_alerts2 : List Alert := (resolve_alert c1_alerts1 1 "NO" 7200 0).2

/-- A qualifying trade on a critical-sensitivity market with ample
liquidity. -/
def c3_trade : Trade :=
  ⟨"t1", "W", "M", "coup", "", some 20000, 100, 1/10, 50, "YES"⟩

/-- Batch body for the loop-control check: processing throws on the wallet
"BAD" and otherwise appends the stored trade row. -/
def c4_step (t : Trade) (rows : List TradeRow) : Except String (List TradeRow) :=
  if t.wallet = "BAD" then Except.error "boom"
  else Except.ok (rows ++ [⟨t.wallet, t.market, t.usd, t.price, t.timestamp⟩])

/-- A trade whose processing raises. -/
def c4_tradeBad : Trade :=
  ⟨"t1", "BAD", "M", "q", "c", some 20000, 100, 1/2, 10, "YES"⟩

/-- A trade whose processing succeeds. -/
def c4_tradeGood : Trade :=
  ⟨"t2", "GOOD", "M", "q", "c", some 20000, 100, 1/2, 11, "YES"⟩

/-- A pending alert with a stored (falsy) zero peak at timestamp 10. -/
def c9_alert : Alert :=
  ⟨1, "M", "W", 0, 2/5, "sig", "pending", some 0, some 10, none, none,
    none, none, none, none, none⟩

/-- Alerts table holding only `c9_alert`. -/
def c9_alerts0 : List Alert := [c9_alert]

/-- A price fetch returning an empty price snapshot at timestamp 5 for
market M. -/
def c9_fetch : String → Option Prices :=
  fun m => if m = "M" then some ⟨none, none, some 5⟩ else none

/-! ## Claim theorems -/

/-- C10: an empty market question short-circuits `get_market_sensitivity`
to priority 5, level NORMAL, score 0 and no matched keywords, for every
category string — the category is never examined. -/
theorem C10_empty_question_ignores_category (cat : String) :
    get_market_sensitivity "" cat = ⟨5, "NORMAL", 0, []⟩ := rfl

/-- C2: the early-exit check contradicts the claim (and its own source
comment).  On a wallet with two closed positions held one hour each the
specified predicate is true but the code returns false, because the tuple
unpacking swaps the row count and the average hold time; conversely, on a
wallet with two closed positions held ten hours each the specified
predicate is false but the code returns true. -/
theorem C2_early_exit_swap_eval :
    check_early_exit_pattern
      [⟨1, "W", "M", "YES", 1, 1, 0, some 1, some 3600, some 0, some 1, "closed"⟩,
       ⟨2, "W", "M", "YES", 1, 1, 0, some 1, some 3600, some 0, some 1, "closed"⟩]
      "W" "M" = false ∧
    earlyExitPattern_specified
      [⟨1, "W", "M", "YES", 1, 1, 0, some 1, some 3600, some 0, some 1, "closed"⟩,
       ⟨2, "W", "M", "YES", 1, 1, 0, some 1, some 3600, some 0, some 1, "closed"⟩]
      "W" "M" = true ∧
    check_early_exit_pattern
      [⟨1, "W", "M", "YES", 1, 1, 0, some 1, some 36000, some 0, some 10, "closed"⟩,
       ⟨2, "W", "M", "YES", 1, 1, 0, some 1, some 36000, some 0, some 10, "closed"⟩]
      "W" "M" = true ∧
    earlyExitPattern_specified
      [⟨1, "W", "M", "YES", 1, 1, 0, some 1, some 36000, some 0, some 10, "closed"⟩,
       ⟨2, "W", "M", "YES", 1, 1, 0, some 1, some 36000, some 0, some 10, "closed"⟩]
      "W" "M" = false := by
  norm_num [check_early_exit_pattern, earlyExitPattern_specified,
    List.filter, List.filterMap]

/-- C1: `resolve_alert` has no status guard.  Resolving alert 1 stores
profit 60 and flips the status to resolved; a second resolution call on
the already-resolved alert with different arguments overwrites the stored
profit with -40 instead of being a no-op. -/
theorem C1_second_resolution_overwrites :
    (alertById c1_alerts1 1).map (fun a => a.status) = some "resolved" ∧
    (alertById c1_alerts1 1).bind (fun a => a.profit_loss) = some 60 ∧
    (alertById c1_alerts2 1).bind (fun a => a.profit_loss) = some (-40) ∧
    (alertById c1_alerts2 1).bind (fun a => a.outcome) = some "NO" := by
  norm_num [c1_alerts2, c1_alerts1, c1_alerts0, resolve_alert, alertById,
    List.find?, update_peak_price]

/-- C4: the trade loop in `main.run` has no per-trade exception handler:
with a batch whose first trade raises, the loop aborts with the error and
the second trade is never processed, whereas the same loop on the batch
without the throwing trade — and the specified catch-and-continue loop on
the full batch — both process it. -/
theorem C4_loop_abort_eval :
    trade_loop c4_step [c4_tradeBad, c4_tradeGood] [] = Except.error "boom" ∧
    trade_loop c4_step [c4_tradeGood] [] =
      Except.ok [⟨"GOOD", "M", 100, 1/2, 11⟩] ∧
    trade_loop_specified c4_step [c4_tradeBad, c4_tradeGood] [] =
      [⟨"GOOD", "M", 100, 1/2, 11⟩] :=
  ⟨rfl, rfl, rfl⟩

/-- C5 (counterexample): `record_alert` joins the signals in argument
order without sorting, so the two permuted signal lists `[a, b]` and
`[b, a]` are stored under the distinct keys `a|b` and `b|a`. -/
theorem C5_permuted_signals_distinct_keys :
    List.Perm ["a", "b"] ["b", "a"] ∧
    ((record_alert [] "m" "w" 0 0 ["a", "b"]).2.getLast?).map
      (fun a => a.signals) = some "a|b" ∧
    ((record_alert [] "m" "w" 0 0 ["b", "a"]).2.getLast?).map
      (fun a => a.signals) = some "b|a" ∧
    ("a|b" : String) ≠ "b|a" :=
  ⟨List.Perm.swap "b" "a" [], by decide, by decide, by decide⟩

/-- C5 (amended): `record_alert` appends exactly one pending row whose
stored signal key is the signal list joined with a pipe in the order
given; no canonicalization is applied. -/
theorem C5_signal_key_join_order (db : List Alert) (m w : String) (ts : ℤ)
    (p : ℚ) (sigs : List String) :
    ((record_alert db m w ts p sigs).2).length = db.length + 1 ∧
    ((record_alert db m w ts p sigs).2).take db.length = db ∧
    ∃ a, ((record_alert db m w ts p sigs).2).getLast? = some a ∧
      a.signals = String.intercalate "|" sigs ∧ a.status = "pending" ∧
      a.market = m ∧ a.wallet = w ∧ a.fired_timestamp = ts ∧
      a.fired_price = p := by
  refine ⟨by simp [record_alert], by simp [record_alert],
    ⟨⟨(db.map (fun a => a.alert_id)).foldr max 0 + 1, m, w, ts, p,
      String.intercalate "|" sigs, "pending", none, none, none, none, none,
      none, none, none, none⟩,
     by simp [record_alert], rfl, rfl, rfl, rfl, rfl, rfl⟩⟩

/-- C7: exit matching is FIFO.  With three open positions of the same
(wallet, market, outcome) key entered at strictly increasing timestamps, a
single exit closes the oldest position, records
`profit_loss = (exit_price - entry_price) * entry_amount` and a hold
duration of `(exit_timestamp - entry_timestamp) / 3600` hours, and leaves
the two later positions open; and when no open position matches the key,
`record_exit` returns none and leaves the table unchanged. -/
theorem C7_fifo_exit_matching :
    (∀ (w m o : String) (p1 a1 p2 a2 p3 a3 xp : ℚ) (t1 t2 t3 xts : ℤ),
      t1 < t2 → t2 < t3 →
      record_exit
        (record_position (record_position (record_position [] w m o p1 a1 t1)
          w m o p2 a2 t2) w m o p3 a3 t3) w m o xp xts =
      (some ⟨1, (xp - p1) * a1, ((xts - t1 : ℤ) : ℚ) / 3600, p1, xp⟩,
       [⟨1, w, m, o, p1, a1, t1, some xp, some xts, some ((xp - p1) * a1),
         some (((xts - t1 : ℤ) : ℚ) / 3600), "closed"⟩,
        ⟨2, w, m, o, p2, a2, t2, none, none, none, none, "open"⟩,
        ⟨3, w, m, o, p3, a3, t3, none, none, none, none, "open"⟩])) ∧
    (∀ (db : List Position) (w m o : String) (xp : ℚ) (xts : ℤ),
      (∀ p ∈ db, matchesExitKey w m o p = false) →
      record_exit db w m o xp xts = (none, db)) := by
  constructor
  · intro w m o p1 a1 p2 a2 p3 a3 xp t1 t2 t3 xts h12 h23
    have h12d : decide (t1 ≤ t2) = true := decide_eq_true (le_of_lt h12)
    have h23d : decide (t2 ≤ t3) = true := decide_eq_true (le_of_lt h23)
    simp [record_position, record_exit, sortByB, insertSorted, matchesExitKey,
      List.filter, h12d, h23d]
  · intro db w m o xp xts h
    have hf : db.filter (matchesExitKey w m o) = [] := by
      rw [List.filter_eq_nil_iff]
      intro p hp
      simp [h p hp]
    simp [record_exit, hf, sortByB]

/-- Witness for C7 at concrete entries (timestamps 0, 1, 2 and an exit at
3600 seconds). -/
theorem C7_fifo_exit_matching_witness :
    (0 : ℤ) < 1 ∧ (1 : ℤ) < 2 ∧
    record_exit
      (record_position (record_position (record_position [] "w" "m" "o" 1 2 0)
        "w" "m" "o" 1 2 1) "w" "m" "o" 1 2 2) "w" "m" "o" 2 3600 =
    (some ⟨1, (2 - 1) * 2, ((3600 - 0 : ℤ) : ℚ) / 3600, 1, 2⟩,
     [⟨1, "w", "m", "o", 1, 2, 0, some 2, some 3600, some ((2 - 1) * 2),
       some (((3600 - 0 : ℤ) : ℚ) / 3600), "closed"⟩,
      ⟨2, "w", "m", "o", 1, 2, 1, none, none, none, none, "open"⟩,
      ⟨3, "w", "m", "o", 1, 2, 2, none, none, none, none, "open"⟩]) :=
  ⟨by decide, by decide,
   C7_fifo_exit_matching.1 "w" "m" "o" 1 2 1 2 1 2 2 0 1 2 3600
     (by decide) (by decide)⟩

/-- C8 (amended): for a nonempty market question, the classifier returns
the first of the five ordered keyword tiers with a word-boundary match
against the lowercased concatenation of question and category, and NORMAL
with score 0 when no tier matches; in particular a text containing both
"coup" (critical tier) and "celebrity" (low tier) classifies as
CRITICAL/priority 1.  (The nonemptiness hypothesis is forced by the
empty-question short-circuit, see the counterexample.) -/
theorem C8_tier_short_circuit :
    (∀ q cat : String, q ≠ "" →
      (tier_matches CRITICAL_KEYWORDS (lowerStr (q ++ " " ++ cat)) = true →
        get_market_sensitivity q cat =
          ⟨1, "CRITICAL", 100, (get_market_sensitivity q cat).matched_keywords⟩) ∧
      (tier_matches CRITICAL_KEYWORDS (lowerStr (q ++ " " ++ cat)) = false →
       tier_matches HIGH_KEYWORDS (lowerStr (q ++ " " ++ cat)) = true →
        get_market_sensitivity q cat =
          ⟨2, "HIGH", 80, (get_market_sensitivity q cat).matched_keywords⟩) ∧
      (tier_matches CRITICAL_KEYWORDS (lowerStr (q ++ " " ++ cat)) = false →
       tier_matches HIGH_KEYWORDS (lowerStr (q ++ " " ++ cat)) = false →
       tier_matches MEDIUM_HIGH_KEYWORDS (lowerStr (q ++ " " ++ cat)) = true →
        get_market_sensitivity q cat =
          ⟨3, "MEDIUM-HIGH", 60, (get_market_sensitivity q cat).matched_keywords⟩) ∧
      (tier_matches CRITICAL_KEYWORDS (lowerStr (q ++ " " ++ cat)) = false →
       tier_matches HIGH_KEYWORDS (lowerStr (q ++ " " ++ cat)) = false →
       tier_matches MEDIUM_HIGH_KEYWORDS (lowerStr (q ++ " " ++ cat)) = false →
       tier_matches MEDIUM_KEYWORDS (lowerStr (q ++ " " ++ cat)) = true →
        get_market_sensitivity q cat =
          ⟨4, "MEDIUM", 40, (get_market_sensitivity q cat).matched_keywords⟩) ∧
      (tier_matches CRITICAL_KEYWORDS (lowerStr (q ++ " " ++ cat)) = false →
       tier_matches HIGH_KEYWORDS (lowerStr (q ++ " " ++ cat)) = false →
       tier_matches MEDIUM_HIGH_KEYWORDS (lowerStr (q ++ " " ++ cat)) = false →
       tier_matches MEDIUM_KEYWORDS (lowerStr (q ++ " " ++ cat)) = false →
       tier_matches LOW_KEYWORDS (lowerStr (q ++ " " ++ cat)) = true →
        get_market_sensitivity q cat =
          ⟨5, "LOW", 20, (get_market_sensitivity q cat).matched_keywords⟩) ∧
      (tier_matches CRITICAL_KEYWORDS (lowerStr (q ++ " " ++ cat)) = false →
       tier_matches HIGH_KEYWORDS (lowerStr (q ++ " " ++ cat)) = false →
       tier_matches MEDIUM_HIGH_KEYWORDS (lowerStr (q ++ " " ++ cat)) = false →
       tier_matches MEDIUM_KEYWORDS (lowerStr (q ++ " " ++ cat)) = false →
       tier_matches LOW_KEYWORDS (lowerStr (q ++ " " ++ cat)) = false →
        get_market_sensitivity q cat = ⟨5, "NORMAL", 0, []⟩)) ∧
    get_market_sensitivity "coup celebrity" "" = ⟨1, "CRITICAL", 100, ["coup"]⟩ := by
  constructor
  · intro q cat hq
    have hnone : ∀ L : List String,
        tier_matches L (lowerStr (q ++ " " ++ cat)) = false →
        L.find? (fun kw => word_boundary_search kw (lowerStr (q ++ " " ++ cat))) = none := by
      intro L hL
      unfold tier_matches at hL
      rw [List.find?_eq_none]
      intro x hx
      have := List.any_eq_false.mp hL x hx
      simpa using this
    have hsome : ∀ L : List String,
        tier_matches L (lowerStr (q ++ " " ++ cat)) = true →
        ∃ kw, L.find? (fun kw => word_boundary_search kw (lowerStr (q ++ " " ++ cat))) = some kw := by
      intro L hL
      unfold tier_matches at hL
      obtain ⟨x, hx, hpx⟩ := List.any_eq_true.mp hL
      exact Option.isSome_iff_exists.mp (List.find?_isSome.mpr ⟨x, hx, hpx⟩)
    refine ⟨?_, ?_, ?_, ?_, ?_, ?_⟩
    · intro h1
      obtain ⟨kw, hkw⟩ := hsome _ h1
      simp [get_market_sensitivity, if_neg hq, hkw]
    · intro h1 h2
      obtain ⟨kw, hkw⟩ := hsome _ h2
      simp [get_market_sensitivity, if_neg hq, hnone _ h1, hkw]
    · intro h1 h2 h3
      obtain ⟨kw, hkw⟩ := hsome _ h3
      simp [get_market_sensitivity, if_neg hq, hnone _ h1, hnone _ h2, hkw]
    · intro h1 h2 h3 h4
      obtain ⟨kw, hkw⟩ := hsome _ h4
      simp [get_market_sensitivity, if_neg hq, hnone _ h1, hnone _ h2, hnone _ h3, hkw]
    · intro h1 h2 h3 h4 h5
      obtain ⟨kw, hkw⟩ := hsome _ h5
      simp [get_market_sensitivity, if_neg hq, hnone _ h1, hnone _ h2, hnone _ h3,
        hnone _ h4, hkw]
    · intro h1 h2 h3 h4 h5
      simp [get_market_sensitivity, if_neg hq, hnone _ h1, hnone _ h2, hnone _ h3,
        hnone _ h4, hnone _ h5]
  · decide

/-- Witness for C8 at the question "coup" with category "x". -/
theorem C8_tier_short_circuit_witness :
    tier_matches CRITICAL_KEYWORDS (lowerStr ("coup" ++ " " ++ "x")) = true ∧
    get_market_sensitivity "coup" "x" =
      ⟨1, "CRITICAL", 100, (get_market_sensitivity "coup" "x").matched_keywords⟩ :=
  ⟨by decide, (C8_tier_short_circuit.1 "coup" "x" (by decide)).1 (by decide)⟩

/-- C8 (counterexample to the claim as stated): with an empty question and
the category "coup", the combined lowercased text has a critical-tier
word-boundary match, yet the classifier returns NORMAL/priority 5 because
the empty question short-circuits before any tier is examined. -/
theorem C8_empty_question_counterexample :
    get_market_sensitivity "" "coup" = ⟨5, "NORMAL", 0, []⟩ ∧
    tier_matches CRITICAL_KEYWORDS (lowerStr ("" ++ " " ++ "coup")) = true :=
  ⟨rfl, by decide⟩

/-- The composed sanity gate passes exactly when the liquidity floor, the
single-trade price-jump check and the high-frequency-trader check all
pass. -/
theorem sanity_check_fst (db : SanityDB) (now : ℤ) (t : Trade)
    (signals : List String) (recent : List Trade) :
    (sanity_check db now t signals recent).1 =
      (check_market_liquidity db now t &&
       (check_price_jump_single_trade t.market t.price t.usd recent &&
        !(is_high_frequency_trader db now t.wallet).1)) := by
  unfold sanity_check
  cases h1 : check_market_liquidity db now t
  · simp [h1]
  · cases h2 : check_price_jump_single_trade t.market t.price t.usd recent
    · simp [h1, h2]
    · rcases hh : is_high_frequency_trader db now t.wallet with ⟨hf, db2⟩
      cases hf <;> simp [h1, h2, hh]

/-- The alerts table after one alert decision: a new row is appended
exactly when the signal count reaches the sensitivity threshold and the
sanity gate passes; otherwise the table is untouched. -/
theorem alert_decision_alerts (db : EngineDB) (now : ℤ) (t : Trade)
    (signals : List String) (recent : List Trade) :
    (alert_decision db now t signals recent).alerts =
      (if get_required_signals
            (get_market_sensitivity t.market_question t.market_category) ≤
            signals.length ∧
          (sanity_check db.sanity now t signals recent).1 = true
       then db.alerts ++
         [⟨(db.alerts.map (fun a => a.alert_id)).foldr max 0 + 1, t.market,
           t.wallet, t.timestamp, t.price, String.intercalate "|" signals,
           "pending", none, none, none, none, none, none, none, none, none⟩]
       else db.alerts) := by
  unfold alert_decision
  by_cases hth : signals.length ≥ get_required_signals
      (get_market_sensitivity t.market_question t.market_category)
  · rcases hsc : sanity_check db.sanity now t signals recent with ⟨ok, r, s2⟩
    cases ok
    · simp [hth, hsc]
    · simp [hth, hsc, record_alert]
  · simp [hth, ge_iff_le] at *

/-- C3 (amended): an alert fires for a trade exactly when the number of
fired signals reaches the sensitivity-derived required count AND the noise
gate passes (liquidity floor, single-trade price-jump check,
high-frequency-trader check); the decision consults no record of
previously fired alerts, so there is no suppression window (see the
counterexample). -/
theorem C3_decision_rule (db : EngineDB) (now : ℤ) (t : Trade)
    (signals : List String) (recent : List Trade) :
    ((alert_decision db now t signals recent).alerts = db.alerts ∨
     (alert_decision db now t signals recent).alerts.length =
       db.alerts.length + 1) ∧
    ((alert_decision db now t signals recent).alerts ≠ db.alerts ↔
      (get_required_signals
        (get_market_sensitivity t.market_question t.market_category) ≤
          signals.length ∧
       check_market_liquidity db.sanity now t = true ∧
       check_price_jump_single_trade t.market t.price t.usd recent = true ∧
       (is_high_frequency_trader db.sanity now t.wallet).1 = false)) := by
  have h := alert_decision_alerts db now t signals recent
  have hfst := sanity_check_fst db.sanity now t signals recent
  by_cases hcond : get_required_signals
      (get_market_sensitivity t.market_question t.market_category) ≤
        signals.length ∧
      (sanity_check db.sanity now t signals recent).1 = true
  · rw [if_pos hcond] at h
    have hgate := hcond.2
    rw [hfst] at hgate
    rw [Bool.and_eq_true, Bool.and_eq_true] at hgate
    obtain ⟨hl, hj, hh⟩ := hgate
    have hne : (alert_decision db now t signals recent).alerts ≠ db.alerts := by
      rw [h]
      intro hcon
      have := congrArg List.length hcon
      simp at this
    refine ⟨Or.inr (by rw [h]; simp), ?_⟩
    exact ⟨fun _ => ⟨hcond.1, hl, hj, by simpa using hh⟩, fun _ => hne⟩
  · rw [if_neg hcond] at h
    refine ⟨Or.inl h, ?_⟩
    constructor
    · intro hcon
      exact absurd h hcon
    · rintro ⟨h1, h2, h3, h4⟩
      exact absurd ⟨h1, by rw [hfst, h2, h3, h4]; rfl⟩ hcond

/-- C3 (counterexample to the claim as stated): two identical qualifying
trades by wallet W on market M at the same timestamp both fire — the
second alert is recorded even though an alert for the same
(wallet, market) pair fired at the very same instant, inside any positive
suppression window. -/
theorem C3_no_suppression_window :
    (process_alert_decisions ⟨⟨[], []⟩, [], []⟩ 100
      [(c3_trade, ["FRESH_WALLET_BIG_BET"]),
       (c3_trade, ["FRESH_WALLET_BIG_BET"])]
      [c3_trade, c3_trade]).alerts =
    [⟨1, "M", "W", 50, 1/10, "FRESH_WALLET_BIG_BET", "pending", none, none,
      none, none, none, none, none, none, none⟩,
     ⟨2, "M", "W", 50, 1/10, "FRESH_WALLET_BIG_BET", "pending", none, none,
      none, none, none, none, none, none, none⟩] := by
  have hsens : get_market_sensitivity c3_trade.market_question
      c3_trade.market_category = ⟨1, "CRITICAL", 100, ["coup"]⟩ := by
    decide
  have hliq : ∀ db : SanityDB, check_market_liquidity db 100 c3_trade = true := by
    intro db
    norm_num [check_market_liquidity, c3_trade, MIN_MARKET_LIQUIDITY]
  have hjump : check_price_jump_single_trade c3_trade.market c3_trade.price
      c3_trade.usd [c3_trade, c3_trade] = true := by
    norm_num [check_price_jump_single_trade, c3_trade,
      MAX_PRICE_JUMP_SINGLE_TRADE, List.filter]
  have hhft1 : is_high_frequency_trader ⟨[], []⟩ 100 c3_trade.wallet =
      (false, ⟨[], [⟨"W", 0, 100⟩]⟩) := by
    norm_num [is_high_frequency_trader, c3_trade, HIGH_FREQ_TRADER_THRESHOLD,
      List.find?, List.filter]
  have hhft2 : is_high_frequency_trader ⟨[], [⟨"W", 0, 100⟩]⟩ 100
      c3_trade.wallet = (false, ⟨[], [⟨"W", 0, 100⟩]⟩) := by
    norm_num [is_high_frequency_trader, c3_trade, HIGH_FREQ_TRADER_THRESHOLD,
      List.find?, List.filter]
  have hsc1 : sanity_check ⟨[], []⟩ 100 c3_trade ["FRESH_WALLET_BIG_BET"]
      [c3_trade, c3_trade] = (true, none, ⟨[], [⟨"W", 0, 100⟩]⟩) := by
    simp [sanity_check, hliq ⟨[], []⟩, hjump, hhft1]
  have hsc2 : sanity_check ⟨[], [⟨"W", 0, 100⟩]⟩ 100 c3_trade
      ["FRESH_WALLET_BIG_BET"] [c3_trade, c3_trade] =
      (true, none, ⟨[], [⟨"W", 0, 100⟩]⟩) := by
    simp [sanity_check, hliq ⟨[], [⟨"W", 0, 100⟩]⟩, hjump, hhft2]
  simp [process_alert_decisions, alert_decision, hsens, hsc1, hsc2,
    get_required_signals, record_alert]
  simp [c3_trade]
  decide

theorem mem_insertSorted {le : α → α → Bool} {x y : α} {l : List α} :
    y ∈ insertSorted le x l ↔ y ∈ x :: l := by
  induction l with
  | nil => simp [insertSorted]
  | cons z zs ih =>
    by_cases h : le x z
    · simp [insertSorted, h]
    · simp [insertSorted, h, ih]
      tauto

theorem mem_sortByB {le : α → α → Bool} {y : α} {l : List α} :
    y ∈ sortByB le l ↔ y ∈ l := by
  induction l with
  | nil => simp [sortByB]
  | cons z zs ih => simp [sortByB, mem_insertSorted, ih]

theorem insertSorted_perm (le : α → α → Bool) (x : α) (l : List α) :
    List.Perm (insertSorted le x l) (x :: l) := by
  induction l with
  | nil => simp [insertSorted]
  | cons z zs ih =>
    by_cases h : le x z
    · simp [insertSorted, h]
    · simp only [insertSorted, h, if_neg, Bool.false_eq_true, not_false_iff]
      exact List.Perm.trans (List.Perm.cons z ih) (List.Perm.swap x z zs)

theorem sortByB_perm (le : α → α → Bool) (l : List α) :
    List.Perm (sortByB le l) l := by
  induction l with
  | nil => simp [sortByB]
  | cons z zs ih =>
    exact List.Perm.trans (insertSorted_perm le z (sortByB le zs))
      (List.Perm.cons z ih)

theorem alertById_of_mem_nodup {db : List Alert} {a : Alert}
    (hnd : (db.map (fun x => x.alert_id)).Nodup) (ha : a ∈ db) :
    alertById db a.alert_id = some a := by
  induction db with
  | nil => cases ha
  | cons b l ih =>
    obtain ⟨hb, hl⟩ := List.nodup_cons.mp hnd
    rcases List.mem_cons.mp ha with rfl | ha2
    · simp [alertById, List.find?]
    · have hne : (b.alert_id = a.alert_id) = False := by
        simp only [eq_iff_iff, iff_false]
        intro he
        have hmem : a.alert_id ∈ List.map (fun x => x.alert_id) l :=
          List.mem_map.mpr ⟨a, ha2, rfl⟩
        rw [← he] at hmem
        exact hb hmem
      have hrec := ih hl ha2
      unfold alertById at hrec ⊢
      rw [List.find?_cons]
      simp only [hne, decide_False]
      exact hrec

theorem alertById_some_id {db : List Alert} {j : Nat} {a : Alert}
    (h : alertById db j = some a) : a.alert_id = j := by
  have := List.find?_some h
  simpa using this

theorem alertById_map_pres (db : List Alert) (g : Alert → Alert)
    (hg : ∀ a, (g a).alert_id = a.alert_id) (j : Nat) :
    alertById (db.map g) j = (alertById db j).map g := by
  induction db with
  | nil => rfl
  | cons b l ih =>
    unfold alertById at ih ⊢
    rw [List.map_cons, List.find?_cons, List.find?_cons, hg b]
    by_cases hb : b.alert_id = j
    · simp [hb]
    · simp [hb, ih]

theorem alertById_update_peak (db : List Alert) (i : Nat) (pp : ℚ) (ts : ℤ)
    (j : Nat) :
    alertById (update_peak_price db i pp ts) j =
      (alertById db j).map (fun a =>
        if a.alert_id = i then
          { a with peak_price := some pp, peak_timestamp := some ts }
        else a) := by
  unfold update_peak_price
  exact alertById_map_pres db _
    (by intro a; by_cases h : a.alert_id = i <;> simp [h]) j

theorem alertById_update_peak_of_ne (db : List Alert) (i : Nat) (pp : ℚ)
    (ts : ℤ) (j : Nat) (hij : i ≠ j) :
    alertById (update_peak_price db i pp ts) j = alertById db j := by
  rw [alertById_update_peak]
  cases h : alertById db j with
  | none => rfl
  | some a =>
    have hid := alertById_some_id h
    have : (a.alert_id = i) = False := by
      simp only [eq_iff_iff, iff_false]
      intro he
      exact hij (he ▸ hid)
    simp [this]

theorem alertById_update_peak_self (db : List Alert) (i : Nat) (pp : ℚ)
    (ts : ℤ) :
    alertById (update_peak_price db i pp ts) i =
      (alertById db i).map (fun a =>
        { a with peak_price := some pp, peak_timestamp := some ts }) := by
  rw [alertById_update_peak]
  cases h : alertById db i with
  | none => rfl
  | some a =>
    have hid := alertById_some_id h
    simp [hid]

theorem peak_step_preserves (fetch : String → Option Prices) (now : ℤ)
    (db : List Alert) (idm : Nat × String) (j : Nat) (hne : idm.1 ≠ j) :
    alertById (peak_step fetch now db idm).1 j = alertById db j := by
  unfold peak_step
  cases hf : fetch idm.2 with
  | none => rfl
  | some pr =>
    simp only []
    split
    · exact alertById_update_peak_of_ne db idm.1 _ _ j hne
    · rfl

theorem peak_pass_preserves (fetch : String → Option Prices) (now : ℤ)
    (l : List (Nat × String)) (db : List Alert) (n : Nat) (j : Nat)
    (hj : ∀ x ∈ l, x.1 ≠ j) :
    alertById (peak_pass fetch now l db n).1 j = alertById db j := by
  induction l generalizing db n with
  | nil => rfl
  | cons x xs ih =>
    have h1 : peak_pass fetch now (x :: xs) db n =
        peak_pass fetch now xs (peak_step fetch now db x).1
          (if (peak_step fetch now db x).2 then n + 1 else n) := rfl
    rw [h1, ih _ _ (fun y hy => hj y (List.mem_cons.mpr (Or.inr hy)))]
    exact peak_step_preserves fetch now db x j
      (hj x (List.mem_cons.mpr (Or.inl rfl)))

theorem peak_pass_append (fetch : String → Option Prices) (now : ℤ)
    (xs ys : List (Nat × String)) (db : List Alert) (n : Nat) :
    peak_pass fetch now (xs ++ ys) db n =
      peak_pass fetch now ys (peak_pass fetch now xs db n).1
        (peak_pass fetch now xs db n).2 := by
  induction xs generalizing db n with
  | nil => rfl
  | cons x xs ih =>
    have h1 : peak_pass fetch now ((x :: xs) ++ ys) db n =
        peak_pass fetch now (xs ++ ys) (peak_step fetch now db x).1
          (if (peak_step fetch now db x).2 then n + 1 else n) := rfl
    have h2 : peak_pass fetch now (x :: xs) db n =
        peak_pass fetch now xs (peak_step fetch now db x).1
          (if (peak_step fetch now db x).2 then n + 1 else n) := rfl
    rw [h1, ih, h2]

/-- C9 (amended): on a peak-update pass, alerts that are not pending are
never touched; a pending alert whose stored peak is a nonzero value is
overwritten only when the freshly fetched candidate price is strictly
higher (in particular a failed fetch leaves it unchanged); and the stored
peak value never decreases except possibly from a stored zero peak, which
Python truthiness treats like a missing peak (see the counterexample). -/
theorem C9_peak_update_guard (db : List Alert) (fetch : String → Option Prices)
    (now : ℤ) (a : Alert)
    (hnd : (db.map (fun x => x.alert_id)).Nodup) (ha : a ∈ db) :
    ∃ a2, alertById (update_peak_prices db fetch now).1 a.alert_id = some a2 ∧
      (a.status ≠ "pending" → a2 = a) ∧
      (∀ p, a.peak_price = some p → p ≠ 0 →
        (∀ pr, fetch a.market = some pr → ¬ p < peakCandidate pr) → a2 = a) ∧
      (∀ p q, a.peak_price = some p → a2.peak_price = some q →
        p ≤ q ∨ p = 0) := by
  have hbase : alertById db a.alert_id = some a := alertById_of_mem_nodup hnd ha
  unfold update_peak_prices
  by_cases hst : a.status = "pending"
  · have hmem_p : a ∈ get_pending_alerts db := by
      unfold get_pending_alerts
      exact mem_sortByB.mpr (List.mem_filter.mpr ⟨ha, by simp [hst]⟩)
    have hx : (a.alert_id, a.market) ∈
        (get_pending_alerts db).map (fun b => (b.alert_id, b.market)) :=
      List.mem_map.mpr ⟨a, hmem_p, rfl⟩
    have hids_nodup : ((get_pending_alerts db).map (fun b => b.alert_id)).Nodup := by
      have hperm : List.Perm (get_pending_alerts db)
          (db.filter (fun x => decide (x.status = "pending"))) :=
        sortByB_perm _ _
      have hsub : (db.filter (fun x => decide (x.status = "pending"))).Sublist db :=
        List.filter_sublist db
      have h1 : ((db.filter (fun x => decide (x.status = "pending"))).map
          (fun x => x.alert_id)).Nodup := (hsub.map _).nodup hnd
      exact ((hperm.map _).nodup_iff).mpr h1
    obtain ⟨l1, l2, hsplit⟩ := List.append_of_mem hx
    have hfst_eq : ∀ l : List Alert,
        (l.map (fun b => (b.alert_id, b.market))).map Prod.fst =
          l.map (fun b => b.alert_id) := by
      intro l
      rw [List.map_map]
      rfl
    have hnotin12 : a.alert_id ∉ l1.map Prod.fst ∧
        a.alert_id ∉ l2.map Prod.fst := by
      have h2 := hids_nodup
      rw [← hfst_eq, hsplit] at h2
      rw [List.map_append, List.map_cons] at h2
      constructor
      · intro hc
        exact (List.disjoint_of_nodup_append h2) hc (List.mem_cons_self _ _)
      · intro hc
        have h3 := (List.nodup_append.mp h2).2.1
        exact (List.nodup_cons.mp h3).1 hc
    have hl1 : ∀ x ∈ l1, x.1 ≠ a.alert_id := by
      intro x hx1 hcon
      exact hnotin12.1 (hcon ▸ List.mem_map.mpr ⟨x, hx1, rfl⟩)
    have hl2 : ∀ x ∈ l2, x.1 ≠ a.alert_id := by
      intro x hx2 hcon
      exact hnotin12.2 (hcon ▸ List.mem_map.mpr ⟨x, hx2, rfl⟩)
    have hdb1 : alertById (peak_pass fetch now l1 db 0).1 a.alert_id = some a := by
      rw [peak_pass_preserves _ _ _ _ _ _ hl1]
      exact hbase
    have hstep_eq : ∀ (d : List Alert) (n : Nat),
        peak_pass fetch now ((a.alert_id, a.market) :: l2) d n =
          peak_pass fetch now l2
            (peak_step fetch now d (a.alert_id, a.market)).1
            (if (peak_step fetch now d (a.alert_id, a.market)).2 then n + 1
             else n) := fun d n => rfl
    rw [hsplit, peak_pass_append, hstep_eq,
      peak_pass_preserves _ _ _ _ _ _ hl2]
    cases hf : fetch a.market with
    | none =>
      have hstep1 : (peak_step fetch now (peak_pass fetch now l1 db 0).1
          (a.alert_id, a.market)).1 = (peak_pass fetch now l1 db 0).1 := by
        unfold peak_step
        simp only [hf]
      rw [hstep1, hdb1]
      refine ⟨a, rfl, fun _ => rfl, fun _ _ _ _ => rfl, ?_⟩
      intro p q hp hq
      rw [hp] at hq
      exact Or.inl (le_of_eq (Option.some.inj hq))
    | some pr =>
      have hcp : (peak_pass fetch now l1 db 0).1.find?
          (fun b => decide (b.alert_id = a.alert_id)) = some a := hdb1
      cases hpk : a.peak_price with
      | none =>
        have hstep1 : (peak_step fetch now (peak_pass fetch now l1 db 0).1
            (a.alert_id, a.market)).1 =
            update_peak_price (peak_pass fetch now l1 db 0).1 a.alert_id
              (peakCandidate pr) (peakTimestamp pr now) := by
          unfold peak_step
          simp [hf, hcp, hpk]
        rw [hstep1, alertById_update_peak_self, hdb1]
        refine ⟨_, rfl, fun hcon => absurd hst hcon, ?_, ?_⟩
        · intro p hp
          exact Option.noConfusion hp
        · intro p q hp hq
          exact Option.noConfusion hp
      | some p =>
        by_cases hz : p = 0
        · have hstep1 : (peak_step fetch now (peak_pass fetch now l1 db 0).1
              (a.alert_id, a.market)).1 =
              update_peak_price (peak_pass fetch now l1 db 0).1 a.alert_id
                (peakCandidate pr) (peakTimestamp pr now) := by
            unfold peak_step
            simp [hf, hcp, hpk, hz]
          rw [hstep1, alertById_update_peak_self, hdb1]
          refine ⟨_, rfl, fun hcon => absurd hst hcon, ?_, ?_⟩
          · intro p2 hp2 hnz
            apply absurd _ hnz
            rw [← Option.some.inj hp2]
            exact hz
          · intro p2 q hp2 hq
            refine Or.inr ?_
            rw [← Option.some.inj hp2]
            exact hz
        · by_cases hgt : p < peakCandidate pr
          · have hstep1 : (peak_step fetch now (peak_pass fetch now l1 db 0).1
                (a.alert_id, a.market)).1 =
                update_peak_price (peak_pass fetch now l1 db 0).1 a.alert_id
                  (peakCandidate pr) (peakTimestamp pr now) := by
              unfold peak_step
              simp [hf, hcp, hpk, hgt]
            rw [hstep1, alertById_update_peak_self, hdb1]
            refine ⟨_, rfl, fun hcon => absurd hst hcon, ?_, ?_⟩
            · intro p2 hp2 hnz hno
              have hlt := hno pr rfl
              rw [Option.some.inj hp2] at hgt
              exact absurd hgt hlt
            · intro p2 q hp2 hq
              have hq2 : peakCandidate pr = q := by simpa using hq
              rw [← Option.some.inj hp2, ← hq2]
              exact Or.inl (le_of_lt hgt)
          · have hstep1 : (peak_step fetch now (peak_pass fetch now l1 db 0).1
                (a.alert_id, a.market)).1 = (peak_pass fetch now l1 db 0).1 := by
              unfold peak_step
              simp [hf, hcp, hpk, hz, hgt]
            rw [hstep1, hdb1]
            refine ⟨a, rfl, fun _ => rfl, fun _ _ _ _ => rfl, ?_⟩
            intro p2 q hp2 hq
            rw [hpk] at hq
            have h5 : p = p2 := Option.some.inj hp2
            have h6 : p = q := Option.some.inj hq
            rw [← h5, ← h6]
            exact Or.inl le_rfl
  · have hnotin : ∀ x ∈ (get_pending_alerts db).map
        (fun b => (b.alert_id, b.market)), x.1 ≠ a.alert_id := by
      rintro ⟨i, m⟩ hxm hii
      obtain ⟨b, hb, hbe⟩ := List.mem_map.mp hxm
      have hbi : b.alert_id = i := congrArg Prod.fst hbe
      have hbmem : b ∈ db ∧ b.status = "pending" := by
        have h1 := mem_sortByB.mp hb
        have h2 := List.mem_filter.mp h1
        exact ⟨h2.1, by simpa using h2.2⟩
      have h3 : alertById db a.alert_id = some b := by
        have h4 := alertById_of_mem_nodup hnd hbmem.1
        have hii2 : i = a.alert_id := hii
        rw [hbi, hii2] at h4
        exact h4
      have hba : b = a := Option.some.inj (h3.symm.trans hbase)
      exact hst (hba ▸ hbmem.2)
    rw [peak_pass_preserves _ _ _ _ _ _ hnotin, hbase]
    refine ⟨a, rfl, fun _ => rfl, fun _ _ _ _ => rfl, ?_⟩
    intro p q hp hq
    rw [hp] at hq
    exact Or.inl (le_of_eq (Option.some.inj hq))

/-- Witness for C9 on a one-alert table. -/
theorem C9_peak_update_guard_witness :
    ∃ a2, alertById (update_peak_prices c9_alerts0 c9_fetch 0).1
        c9_alert.alert_id = some a2 ∧
      (c9_alert.status ≠ "pending" → a2 = c9_alert) ∧
      (∀ p, c9_alert.peak_price = some p → p ≠ 0 →
        (∀ pr, c9_fetch c9_alert.market = some pr →
          ¬ p < peakCandidate pr) → a2 = c9_alert) ∧
      (∀ p q, c9_alert.peak_price = some p → a2.peak_price = some q →
        p ≤ q ∨ p = 0) :=
  C9_peak_update_guard c9_alerts0 c9_fetch 0 c9_alert
    (by simp [c9_alerts0, c9_alert]) (by simp [c9_alerts0])

/-- C9 (counterexample to the claim as stated): a pending alert with
stored peak 0 at timestamp 10 is overwritten by a pass whose fetched
candidate price is 0 — not strictly higher than the stored peak — because
`not current_peak` treats the stored zero as missing; the stored peak
timestamp changes from 10 to 5. -/
theorem C9_zero_peak_timestamp_overwrite :
    (update_peak_prices c9_alerts0 c9_fetch 0).1 =
      [⟨1, "M", "W", 0, 2/5, "sig", "pending", some 0, some 5, none, none,
        none, none, none, none, none⟩] ∧
    c9_alert.peak_price = some 0 ∧ c9_alert.peak_timestamp = some 10 ∧
    ¬ (0 : ℚ) < peakCandidate ⟨none, none, some 5⟩ := by
  refine ⟨?_, rfl, rfl, by simp [peakCandidate]⟩
  simp [update_peak_prices, get_pending_alerts, sortByB, insertSorted,
    c9_alerts0, c9_alert, c9_fetch, peak_pass, peak_step, peakCandidate,
    peakTimestamp, update_peak_price, alertById, List.find?, List.filter]

theorem adj_iff {edges : List (String × String)} {a b : String} :
    Adj edges a b ↔ a ≠ b ∧ ∃ s, (a, s) ∈ edges ∧ (b, s) ∈ edges := by
  unfold Adj adjacentB
  simp only [Bool.and_eq_true, decide_eq_true_eq, List.any_eq_true]
  constructor
  · rintro ⟨hne, e1, he1, h1, e2, he2, h2, hs⟩
    refine ⟨hne, e1.2, ?_, ?_⟩
    · have : (a, e1.2) = e1 := by
        cases e1
        simp only at h1
        simp [h1]
      rw [this]
      exact he1
    · have : (b, e1.2) = e2 := by
        cases e2
        simp only at h2 hs
        simp [h2, hs]
      rw [this]
      exact he2
  · rintro ⟨hne, s, ha, hb⟩
    exact ⟨hne, (a, s), ha, rfl, (b, s), hb, rfl, rfl⟩

theorem adj_symm {edges : List (String × String)} {a b : String}
    (h : Adj edges a b) : Adj edges b a := by
  rw [adj_iff] at h ⊢
  obtain ⟨hne, s, ha, hb⟩ := h
  exact ⟨hne.symm, s, hb, ha⟩

theorem adj_ne {edges : List (String × String)} {a b : String}
    (h : Adj edges a b) : a ≠ b := (adj_iff.mp h).1

theorem mem_walletList_of_adj_left {edges : List (String × String)}
    {a b : String} (h : Adj edges a b) : a ∈ walletList edges := by
  obtain ⟨-, s, ha, -⟩ := adj_iff.mp h
  unfold walletList
  rw [List.mem_dedup]
  exact List.mem_map.mpr ⟨(a, s), ha, rfl⟩

theorem mem_walletList_of_adj_right {edges : List (String × String)}
    {a b : String} (h : Adj edges a b) : b ∈ walletList edges :=
  mem_walletList_of_adj_left (adj_symm h)

theorem mem_neighborsOf {edges : List (String × String)} {w b : String} :
    b ∈ neighborsOf edges w ↔ Adj edges w b := by
  unfold neighborsOf
  rw [List.mem_filter]
  constructor
  · rintro ⟨-, h⟩
    exact h
  · intro h
    exact ⟨mem_walletList_of_adj_right h, h⟩

theorem mem_connectedWallets {edges : List (String × String)} {w : String} :
    w ∈ connectedWallets edges ↔ ∃ b, Adj edges w b := by
  unfold connectedWallets
  rw [List.mem_filter]
  constructor
  · rintro ⟨-, h⟩
    cases hb : neighborsOf edges w with
    | nil =>
      rw [hb] at h
      simp at h
    | cons b bs =>
      have hbm : b ∈ neighborsOf edges w := by
        rw [hb]
        exact List.mem_cons_self b bs
      exact ⟨b, mem_neighborsOf.mp hbm⟩
  · rintro ⟨b, hb⟩
    refine ⟨mem_walletList_of_adj_left hb, ?_⟩
    have : b ∈ neighborsOf edges w := mem_neighborsOf.mpr hb
    cases hne : (neighborsOf edges w).isEmpty
    · rfl
    · rw [List.isEmpty_iff] at hne
      rw [hne] at this
      cases this

theorem neighborsOf_subset {edges : List (String × String)} {w v : String}
    (h : v ∈ neighborsOf edges w) : v ∈ walletList edges :=
  (List.mem_filter.mp h).1

theorem connectedWallets_subset {edges : List (String × String)} {w : String}
    (h : w ∈ connectedWallets edges) : w ∈ walletList edges :=
  (List.mem_filter.mp h).1

theorem reach_symm {edges : List (String × String)} {a b : String}
    (h : Reach edges a b) : Reach edges b a := by
  induction h with
  | refl => exact Relation.ReflTransGen.refl
  | tail hab hbc ih => exact Relation.ReflTransGen.head (adj_symm hbc) ih

theorem reach_closed {edges : List (String × String)} {S : String → Prop}
    (hS : ∀ x, S x → ∀ y, Adj edges x y → S y) {a b : String}
    (ha : S a) (h : Reach edges a b) : S b := by
  induction h with
  | refl => exact ha
  | tail hab hbc ih => exact hS _ ih _ hbc

theorem filter_notmem_cons_length {W visited : List String} {w : String}
    (hW : W.Nodup) (hwW : w ∈ W) (hwv : w ∉ visited) :
    ((W.filter (fun v => !(decide (v ∈ w :: visited)))).length) + 1 =
      (W.filter (fun v => !(decide (v ∈ visited)))).length := by
  induction W with
  | nil => cases hwW
  | cons x xs ih =>
    obtain ⟨hx, hxs⟩ := List.nodup_cons.mp hW
    rcases List.mem_cons.mp hwW with rfl | hwW2
    · have h1 : (!(decide (w ∈ w :: visited))) = false := by simp
      have h2 : (!(decide (w ∈ visited))) = true := by simp [hwv]
      rw [List.filter_cons, List.filter_cons, h1, h2]
      simp only [if_false, if_true, List.length_cons, Bool.false_eq_true]
      have hcong : xs.filter (fun v => !(decide (v ∈ w :: visited))) =
          xs.filter (fun v => !(decide (v ∈ visited))) := by
        apply List.filter_congr
        intro v hv
        have hvw : v ≠ w := fun hc => hx (hc ▸ hv)
        simp [List.mem_cons, hvw]
      rw [hcong]
    · rw [List.filter_cons, List.filter_cons]
      by_cases hxv : x ∈ visited
      · have hxall : x ∈ w :: visited := List.mem_cons.mpr (Or.inr hxv)
        simp only [hxall, hxv, decide_True, Bool.not_true, Bool.false_eq_true,
          if_false]
        exact ih hxs hwW2
      · by_cases hxw : x = w
        · exact absurd hwW2 (hxw ▸ hx)
        · have hxall : x ∉ w :: visited := by simp [hxw, hxv]
          simp only [hxall, hxv, decide_False, Bool.not_false, if_true,
            List.length_cons]
          have hih := ih hxs hwW2
          omega

theorem walletList_nodup (edges : List (String × String)) :
    (walletList edges).Nodup := by
  unfold walletList
  exact List.nodup_dedup _

theorem dfsAux_spec (edges : List (String × String)) :
    ∀ (fuel : Nat) (stack visited : List String),
      (∀ v ∈ stack, v ∈ walletList edges) →
      (∀ v ∈ visited, ∀ u, Adj edges v u → u ∈ visited ∨ u ∈ stack) →
      stack.length +
        ((walletList edges).filter
          (fun v => !(decide (v ∈ visited)))).length *
          ((walletList edges).length + 1) ≤ fuel →
      (∀ v ∈ visited, v ∈ dfsAux edges fuel stack visited) ∧
      (∀ v ∈ stack, v ∈ dfsAux edges fuel stack visited) ∧
      (∀ v ∈ dfsAux edges fuel stack visited,
        v ∈ visited ∨ ∃ w ∈ stack, Reach edges w v) ∧
      (∀ v ∈ dfsAux edges fuel stack visited, ∀ u, Adj edges v u →
        u ∈ dfsAux edges fuel stack visited) := by
  intro fuel
  induction fuel with
  | zero =>
    intro stack visited hsub hinv hfuel
    have hstack : stack = [] := by
      cases stack with
      | nil => rfl
      | cons a l =>
        exfalso
        simp only [List.length_cons] at hfuel
        omega
    subst hstack
    refine ⟨fun v hv => hv, ?_, fun v hv => Or.inl hv, ?_⟩
    · intro v hv
      cases hv
    · intro v hv u hadj
      rcases hinv v hv u hadj with h | h
      · exact h
      · cases h
  | succ n ih =>
    intro stack visited hsub hinv hfuel
    cases stack with
    | nil =>
      refine ⟨fun v hv => hv, ?_, fun v hv => Or.inl hv, ?_⟩
      · intro v hv
        cases hv
      · intro v hv u hadj
        rcases hinv v hv u hadj with h | h
        · exact h
        · cases h
    | cons w rest =>
      have heq : dfsAux edges (n + 1) (w :: rest) visited =
          if w ∈ visited then dfsAux edges n rest visited
          else dfsAux edges n (neighborsOf edges w ++ rest) (w :: visited) := rfl
      by_cases hv : w ∈ visited
      · rw [heq, if_pos hv]
        have hsub2 : ∀ v ∈ rest, v ∈ walletList edges :=
          fun v hv2 => hsub v (List.mem_cons.mpr (Or.inr hv2))
        have hinv2 : ∀ v ∈ visited, ∀ u, Adj edges v u →
            u ∈ visited ∨ u ∈ rest := by
          intro v hv2 u hadj
          rcases hinv v hv2 u hadj with h | h
          · exact Or.inl h
          · rcases List.mem_cons.mp h with rfl | h2
            · exact Or.inl hv
            · exact Or.inr h2
        have hfuel2 : rest.length +
            ((walletList edges).filter
              (fun v => !(decide (v ∈ visited)))).length *
              ((walletList edges).length + 1) ≤ n := by
          simp only [List.length_cons] at hfuel
          omega
        obtain ⟨c1, c2, c3, c4⟩ := ih rest visited hsub2 hinv2 hfuel2
        refine ⟨c1, ?_, ?_, c4⟩
        · intro v hv2
          rcases List.mem_cons.mp hv2 with rfl | h2
          · exact c1 v hv
          · exact c2 v h2
        · intro v hv2
          rcases c3 v hv2 with h | ⟨w2, hw2, hr⟩
          · exact Or.inl h
          · exact Or.inr ⟨w2, List.mem_cons.mpr (Or.inr hw2), hr⟩
      · rw [heq, if_neg hv]
        have hwW : w ∈ walletList edges :=
          hsub w (List.mem_cons.mpr (Or.inl rfl))
        have hsub2 : ∀ v ∈ neighborsOf edges w ++ rest,
            v ∈ walletList edges := by
          intro v hv2
          rcases List.mem_append.mp hv2 with h | h
          · exact neighborsOf_subset h
          · exact hsub v (List.mem_cons.mpr (Or.inr h))
        have hinv2 : ∀ v ∈ w :: visited, ∀ u, Adj edges v u →
            u ∈ w :: visited ∨ u ∈ neighborsOf edges w ++ rest := by
          intro v hv2 u hadj
          rcases List.mem_cons.mp hv2 with rfl | h2
          · exact Or.inr (List.mem_append.mpr
              (Or.inl (mem_neighborsOf.mpr hadj)))
          · rcases hinv v h2 u hadj with h | h
            · exact Or.inl (List.mem_cons.mpr (Or.inr h))
            · rcases List.mem_cons.mp h with rfl | h3
              · exact Or.inl (List.mem_cons.mpr (Or.inl rfl))
              · exact Or.inr (List.mem_append.mpr (Or.inr h3))
        have hfuel2 : (neighborsOf edges w ++ rest).length +
            ((walletList edges).filter
              (fun v => !(decide (v ∈ w :: visited)))).length *
              ((walletList edges).length + 1) ≤ n := by
          have hcount := filter_notmem_cons_length (walletList_nodup edges)
            hwW hv
          have hnb : (neighborsOf edges w).length ≤ (walletList edges).length :=
            List.length_filter_le _ _
          simp only [List.length_append, List.length_cons] at hfuel ⊢
          rw [← hcount, Nat.add_mul, Nat.one_mul] at hfuel
          omega
        obtain ⟨c1, c2, c3, c4⟩ := ih (neighborsOf edges w ++ rest)
          (w :: visited) hsub2 hinv2 hfuel2
        refine ⟨?_, ?_, ?_, c4⟩
        · intro v hv2
          exact c1 v (List.mem_cons.mpr (Or.inr hv2))
        · intro v hv2
          rcases List.mem_cons.mp hv2 with rfl | h2
          · exact c1 v (List.mem_cons.mpr (Or.inl rfl))
          · exact c2 v (List.mem_append.mpr (Or.inr h2))
        · intro v hv2
          rcases c3 v hv2 with h | ⟨w2, hw2, hr⟩
          · rcases List.mem_cons.mp h with rfl | h3
            · exact Or.inr ⟨v, List.mem_cons.mpr (Or.inl rfl),
                Relation.ReflTransGen.refl⟩
            · exact Or.inl h3
          · rcases List.mem_append.mp hw2 with h4 | h4
            · exact Or.inr ⟨w, List.mem_cons.mpr (Or.inl rfl),
                Relation.ReflTransGen.head (mem_neighborsOf.mp h4) hr⟩
            · exact Or.inr ⟨w2, List.mem_cons.mpr (Or.inr h4), hr⟩

theorem dfs_run (edges : List (String × String)) (w : String)
    (visited : List String) (hwW : w ∈ walletList edges)
    (hcl : ∀ v ∈ visited, ∀ u, Adj edges v u → u ∈ visited) :
    (∀ v, v ∈ dfsAux edges (dfs_fuel edges) [w] visited ↔
      (v ∈ visited ∨ Reach edges w v)) ∧
    (∀ v ∈ dfsAux edges (dfs_fuel edges) [w] visited, ∀ u, Adj edges v u →
      u ∈ dfsAux edges (dfs_fuel edges) [w] visited) := by
  have hfuel : ([w] : List String).length +
      ((walletList edges).filter (fun v => !(decide (v ∈ visited)))).length *
        ((walletList edges).length + 1) ≤ dfs_fuel edges := by
    have h1 : ((walletList edges).filter
        (fun v => !(decide (v ∈ visited)))).length ≤
        (walletList edges).length := List.length_filter_le _ _
    have h2 : ((walletList edges).filter
        (fun v => !(decide (v ∈ visited)))).length *
        ((walletList edges).length + 1) ≤
        (walletList edges).length * ((walletList edges).length + 1) :=
      Nat.mul_le_mul_right _ h1
    unfold dfs_fuel
    simp only [List.length_cons, List.length_nil]
    rw [Nat.add_mul, Nat.one_mul]
    omega
  obtain ⟨c1, c2, c3, c4⟩ := dfsAux_spec edges (dfs_fuel edges) [w] visited
    (by
      intro v hv
      rcases List.mem_cons.mp hv with rfl | h
      · exact hwW
      · cases h)
    (by
      intro v hv u hadj
      exact Or.inl (hcl v hv u hadj))
    hfuel
  refine ⟨?_, c4⟩
  intro v
  constructor
  · intro hvR
    rcases c3 v hvR with h | ⟨w2, hw2, hr⟩
    · exact Or.inl h
    · rcases List.mem_cons.mp hw2 with rfl | h2
      · exact Or.inr hr
      · cases h2
  · intro hv
    rcases hv with h | hr
    · exact c1 v h
    · have hw : w ∈ dfsAux edges (dfs_fuel edges) [w] visited :=
        c2 w (List.mem_cons.mpr (Or.inl rfl))
      exact reach_closed
        (S := fun x => x ∈ dfsAux edges (dfs_fuel edges) [w] visited)
        (fun x hx y hy => c4 x hx y hy) hw hr

theorem dfs_cluster (edges : List (String × String)) (w : String)
    (visited : List String) (hwW : w ∈ walletList edges) (hv : w ∉ visited)
    (hcl : ∀ v ∈ visited, ∀ u, Adj edges v u → u ∈ visited) :
    (∀ x, (x ∈ (dfsAux edges (dfs_fuel edges) [w] visited).filter
        (fun v => !(decide (v ∈ visited))) ↔ Reach edges w x)) ∧
    (∀ v ∈ dfsAux edges (dfs_fuel edges) [w] visited, ∀ u, Adj edges v u →
      u ∈ dfsAux edges (dfs_fuel edges) [w] visited) ∧
    (∀ v, v ∈ dfsAux edges (dfs_fuel edges) [w] visited ↔
      v ∈ visited ∨ Reach edges w v) := by
  obtain ⟨hiff, hclR⟩ := dfs_run edges w visited hwW hcl
  have hdis : ∀ x, Reach edges w x → x ∉ visited := by
    intro x hr hx
    exact hv (reach_closed (S := fun y => y ∈ visited) hcl hx (reach_symm hr))
  refine ⟨?_, hclR, hiff⟩
  intro x
  rw [List.mem_filter]
  constructor
  · rintro ⟨hxR, hxnv⟩
    rcases (hiff x).mp hxR with h | h
    · exfalso
      simp only [Bool.not_eq_true', decide_eq_false_iff_not] at hxnv
      exact hxnv h
    · exact h
  · intro hr
    refine ⟨(hiff x).mpr (Or.inr hr), ?_⟩
    simp only [Bool.not_eq_true', decide_eq_false_iff_not]
    exact hdis x hr

theorem two_le_length_of_mem {l : List String} {x y : String}
    (hx : x ∈ l) (hy : y ∈ l) (hxy : x ≠ y) : 2 ≤ l.length := by
  cases l with
  | nil => cases hx
  | cons a t =>
    cases t with
    | nil =>
      rw [List.mem_singleton] at hx hy
      exact absurd (hx.trans hy.symm) hxy
    | cons b t2 =>
      simp only [List.length_cons]
      omega

theorem clusters_loop_sound (edges : List (String × String)) :
    ∀ (roots visited : List String),
    (∀ v ∈ roots, v ∈ connectedWallets edges) →
    (∀ v ∈ visited, ∀ u, Adj edges v u → u ∈ visited) →
    ∀ c ∈ clusters_loop edges roots visited,
      ∃ w, (∃ b, Adj edges w b) ∧ (∀ x, x ∈ c ↔ Reach edges w x) := by
  intro roots
  induction roots with
  | nil =>
    intro visited _ _ c hc
    cases hc
  | cons w ws ih =>
    intro visited hroots hcl c hc
    have hroots2 : ∀ v ∈ ws, v ∈ connectedWallets edges :=
      fun v h => hroots v (List.mem_cons.mpr (Or.inr h))
    have heq : clusters_loop edges (w :: ws) visited =
        if w ∈ visited then clusters_loop edges ws visited
        else
          if 2 ≤ ((dfsAux edges (dfs_fuel edges) [w] visited).filter
              (fun v => !(decide (v ∈ visited)))).length then
            ((dfsAux edges (dfs_fuel edges) [w] visited).filter
              (fun v => !(decide (v ∈ visited)))) ::
              clusters_loop edges ws (dfsAux edges (dfs_fuel edges) [w] visited)
          else clusters_loop edges ws
            (dfsAux edges (dfs_fuel edges) [w] visited) := rfl
    rw [heq] at hc
    by_cases hv : w ∈ visited
    · rw [if_pos hv] at hc
      exact ih visited hroots2 hcl c hc
    · rw [if_neg hv] at hc
      obtain ⟨hclu, hclR, hiff⟩ := dfs_cluster edges w visited
        (connectedWallets_subset (hroots w (List.mem_cons.mpr (Or.inl rfl))))
        hv hcl
      by_cases hlen : 2 ≤ ((dfsAux edges (dfs_fuel edges) [w] visited).filter
          (fun v => !(decide (v ∈ visited)))).length
      · rw [if_pos hlen] at hc
        rcases List.mem_cons.mp hc with rfl | hc2
        · exact ⟨w, mem_connectedWallets.mp
            (hroots w (List.mem_cons.mpr (Or.inl rfl))), hclu⟩
        · exact ih _ hroots2 hclR c hc2
      · rw [if_neg hlen] at hc
        exact ih _ hroots2 hclR c hc

theorem clusters_loop_complete (edges : List (String × String))
    (S : Finset String) :
    ∀ (roots visited : List String),
    (∀ v ∈ roots, v ∈ connectedWallets edges) →
    (∀ v ∈ visited, ∀ u, Adj edges v u → u ∈ visited) →
    IsFundingComponent edges S → 2 ≤ S.card →
    (∃ w ∈ roots, w ∈ S ∧ w ∉ visited) →
    ∃ c ∈ clusters_loop edges roots visited, ∀ x, x ∈ c ↔ x ∈ S := by
  intro roots
  induction roots with
  | nil =>
    rintro visited _ _ _ _ ⟨w, hw, -⟩
    cases hw
  | cons w ws ih =>
    rintro visited hroots hcl hcomp hcard ⟨w0, hw0r, hw0S, hw0v⟩
    obtain ⟨hne, hclosedS, hmut⟩ := hcomp
    have hroots2 : ∀ v ∈ ws, v ∈ connectedWallets edges :=
      fun v h => hroots v (List.mem_cons.mpr (Or.inr h))
    have heq : clusters_loop edges (w :: ws) visited =
        if w ∈ visited then clusters_loop edges ws visited
        else
          if 2 ≤ ((dfsAux edges (dfs_fuel edges) [w] visited).filter
              (fun v => !(decide (v ∈ visited)))).length then
            ((dfsAux edges (dfs_fuel edges) [w] visited).filter
              (fun v => !(decide (v ∈ visited)))) ::
              clusters_loop edges ws (dfsAux edges (dfs_fuel edges) [w] visited)
          else clusters_loop edges ws
            (dfsAux edges (dfs_fuel edges) [w] visited) := rfl
    rw [heq]
    by_cases hv : w ∈ visited
    · rw [if_pos hv]
      refine ih visited hroots2 hcl ⟨hne, hclosedS, hmut⟩ hcard
        ⟨w0, ?_, hw0S, hw0v⟩
      rcases List.mem_cons.mp hw0r with rfl | h
      · exact absurd hv hw0v
      · exact h
    · rw [if_neg hv]
      have hwW : w ∈ walletList edges :=
        connectedWallets_subset (hroots w (List.mem_cons.mpr (Or.inl rfl)))
      obtain ⟨hclu, hclR, hiff⟩ := dfs_cluster edges w visited hwW hv hcl
      by_cases hwS : w ∈ S
      · have hSC : ∀ x, Reach edges w x ↔ x ∈ S := by
          intro x
          constructor
          · intro hr
            exact reach_closed (S := fun y => y ∈ S)
              (fun y hy z hz => hclosedS y hy z hz) hwS hr
          · intro hx
            exact hmut w hwS x hx
        have hcluS : ∀ x, x ∈ ((dfsAux edges (dfs_fuel edges) [w] visited).filter
            (fun v => !(decide (v ∈ visited)))) ↔ x ∈ S :=
          fun x => (hclu x).trans (hSC x)
        have hlen : 2 ≤ ((dfsAux edges (dfs_fuel edges) [w] visited).filter
            (fun v => !(decide (v ∈ visited)))).length := by
          obtain ⟨x, hx, y, hy, hxy⟩ := Finset.one_lt_card.mp
            (show 1 < S.card by omega)
          exact two_le_length_of_mem ((hcluS x).mpr hx) ((hcluS y).mpr hy) hxy
        rw [if_pos hlen]
        exact ⟨_, List.mem_cons.mpr (Or.inl rfl), hcluS⟩
      · have hw0w : w0 ≠ w := fun hc => hwS (hc ▸ hw0S)
        have hw0ws : w0 ∈ ws := by
          rcases List.mem_cons.mp hw0r with h | h
          · exact absurd h hw0w
          · exact h
        have hw0v2 : w0 ∉ dfsAux edges (dfs_fuel edges) [w] visited := by
          intro hc
          rcases (hiff w0).mp hc with h | h
          · exact hw0v h
          · exact hwS (reach_closed (S := fun y => y ∈ S)
              (fun y hy z hz => hclosedS y hy z hz) hw0S (reach_symm h))
        have hwit : ∃ v ∈ ws, v ∈ S ∧
            v ∉ dfsAux edges (dfs_fuel edges) [w] visited :=
          ⟨w0, hw0ws, hw0S, hw0v2⟩
        by_cases hlen : 2 ≤ ((dfsAux edges (dfs_fuel edges) [w] visited).filter
            (fun v => !(decide (v ∈ visited)))).length
        · rw [if_pos hlen]
          obtain ⟨c, hc, hcS⟩ := ih _ hroots2 hclR ⟨hne, hclosedS, hmut⟩
            hcard hwit
          exact ⟨c, List.mem_cons.mpr (Or.inr hc), hcS⟩
        · rw [if_neg hlen]
          exact ih _ hroots2 hclR ⟨hne, hclosedS, hmut⟩ hcard hwit

theorem funding_clusters_characterization (edges : List (String × String))
    (m : Nat) (S : Finset String) :
    (∃ c ∈ find_shared_funding_clusters edges m, c.toFinset = S) ↔
    (IsFundingComponent edges S ∧ 2 ≤ S.card) := by
  constructor
  · rintro ⟨c, hc, rfl⟩
    have hc2 : c ∈ clusters_loop edges (connectedWallets edges) [] := hc
    obtain ⟨w, ⟨b, hadj⟩, hiffc⟩ := clusters_loop_sound edges
      (connectedWallets edges) [] (fun v h => h)
      (by intro v hv; cases hv) c hc2
    have hmemS : ∀ x, x ∈ c.toFinset ↔ Reach edges w x := by
      intro x
      rw [List.mem_toFinset]
      exact hiffc x
    refine ⟨⟨⟨w, ?_⟩, ?_, ?_⟩, ?_⟩
    · exact (hmemS w).mpr Relation.ReflTransGen.refl
    · intro a ha u hu
      rw [hmemS] at ha ⊢
      exact Relation.ReflTransGen.tail ha hu
    · intro a ha b2 hb2
      rw [hmemS] at ha hb2
      exact Relation.ReflTransGen.trans (reach_symm ha) hb2
    · have hw : w ∈ c.toFinset := (hmemS w).mpr Relation.ReflTransGen.refl
      have hb : b ∈ c.toFinset :=
        (hmemS b).mpr (Relation.ReflTransGen.single hadj)
      have h2 := Finset.one_lt_card.mpr ⟨w, hw, b, hb, adj_ne hadj⟩
      omega
  · rintro ⟨⟨hne, hclosedS, hmut⟩, hcard⟩
    obtain ⟨a, haS⟩ := hne
    obtain ⟨b2, hb2S, hab⟩ : ∃ b2 ∈ S, b2 ≠ a := by
      obtain ⟨x, hx, y, hy, hxy⟩ := Finset.one_lt_card.mp
        (show 1 < S.card by omega)
      by_cases hxa : x = a
      · refine ⟨y, hy, ?_⟩
        rw [← hxa]
        exact hxy.symm
      · exact ⟨x, hx, hxa⟩
    have hreach : Reach edges a b2 := hmut a haS b2 hb2S
    obtain ⟨u, hu⟩ : ∃ u, Adj edges a u := by
      rcases Relation.ReflTransGen.cases_head hreach with heq | ⟨c0, hc0, -⟩
      · exact absurd heq.symm hab
      · exact ⟨c0, hc0⟩
    have haCW : a ∈ connectedWallets edges := mem_connectedWallets.mpr ⟨u, hu⟩
    obtain ⟨c, hc, hcS⟩ := clusters_loop_complete edges S
      (connectedWallets edges) [] (fun v h => h)
      (by intro v hv; cases hv) ⟨⟨a, haS⟩, hclosedS, hmut⟩ hcard
      ⟨a, haCW, haS, by intro h; cases h⟩
    refine ⟨c, hc, ?_⟩
    ext x
    rw [List.mem_toFinset, hcS]

/-- C6 (amended): for every set of funding edges and every minSize
argument, the clustering operation returns exactly the connected
components of the shared-funding-source graph that have at least two
wallets — the hardcoded `len(cluster) >= 2` filter; the `min_shared`
argument is ignored (see the counterexample).  A wallet with no funding
edges appears in no returned cluster, and for the edges
{(A,S1),(B,S1),(C,S2),(D,S2)} with minSize 2 the result is exactly
{A,B} and {C,D}. -/
theorem C6_clusters_are_components :
    (∀ (edges : List (String × String)) (m : Nat) (S : Finset String),
      (∃ c ∈ find_shared_funding_clusters edges m, c.toFinset = S) ↔
      (IsFundingComponent edges S ∧ 2 ≤ S.card)) ∧
    (∀ (edges : List (String × String)) (m : Nat) (w : String),
      (∀ e ∈ edges, e.1 ≠ w) →
      ∀ c ∈ find_shared_funding_clusters edges m, w ∉ c) ∧
    ((find_shared_funding_clusters
        [("A", "S1"), ("B", "S1"), ("C", "S2"), ("D", "S2")] 2).map
          (fun c => c.toFinset) =
      [{"B", "A"}, {"D", "C"}]) := by
  refine ⟨fun edges m S => funding_clusters_characterization edges m S,
    ?_, by decide⟩
  intro edges m w hw c hc hwc
  obtain ⟨⟨hne, hclosedS, hmut⟩, hcard⟩ :=
    (funding_clusters_characterization edges m c.toFinset).mp ⟨c, hc, rfl⟩
  have hwS : w ∈ c.toFinset := List.mem_toFinset.mpr hwc
  obtain ⟨x, hx, y, hy, hxy⟩ := Finset.one_lt_card.mp
    (show 1 < c.toFinset.card by omega)
  obtain ⟨z, hzS, hzw⟩ : ∃ z ∈ c.toFinset, z ≠ w := by
    by_cases hxw : x = w
    · exact ⟨y, hy, fun hc2 => hxy (hxw.trans hc2.symm)⟩
    · exact ⟨x, hx, hxw⟩
  have hreach : Reach edges w z := hmut w hwS z hzS
  obtain ⟨u, hu⟩ : ∃ u, Adj edges w u := by
    rcases Relation.ReflTransGen.cases_head hreach with heq | ⟨c0, hc0, -⟩
    · exact absurd heq (fun h => hzw h.symm)
    · exact ⟨c0, hc0⟩
  obtain ⟨-, s, hws, -⟩ := adj_iff.mp hu
  exact hw (w, s) hws rfl

/-- Witness for C6: wallet E, which has no funding edge, is not a member
of the first returned cluster of the specification example. -/
theorem C6_clusters_are_components_witness :
    "E" ∉ (["B", "A"] : List String) :=
  C6_clusters_are_components.2.1
    [("A", "S1"), ("B", "S1"), ("C", "S2"), ("D", "S2")] 2 "E" (by decide)
    ["B", "A"] (by decide)

/-- C6 (counterexample to the claim as stated): with minSize 3 the claim
requires components smaller than 3 to be filtered out, but the code
ignores the argument and still returns the two-wallet component {A,B}. -/
theorem C6_min_size_ignored :
    (find_shared_funding_clusters [("A", "S1"), ("B", "S1")] 3).map
      (fun c => c.toFinset) = [{"B", "A"}] := by decide


end PolymarketInsider
